import Mathlib

/-!
# NanoSec-OS: verification of spec claims against the kernel sources

This file gives a shallow embedding, in Lean 4, of the parts of the
NanoSec-OS kernel that the specification's claims talk about, and proves
or refutes each claim against that embedding.  Every definition is
translated from the C sources (`src/kernel/...`); machine integers are
modelled as `Nat` with explicit masking / `% 2^w` where the C code can
wrap, fallible C functions return `Option`, and the module-level static
state of each subsystem becomes an explicit state record threaded through
the operations.
-/

set_option maxRecDepth 10000

namespace NanoSec

/-! ## Scheduler and process model (`src/kernel/proc/process.c`)

The process table is `proc_table[MAX_PROCESSES]` with `MAX_PROCESSES = 64`;
TCBs are identified here by their table slot (`Fin 64`).  Slot 0 is the
idle/kernel TCB with PID 0.  The intrusive `next`-pointer ready queue
(`ready_queue_head/tail`) is modelled as a list of slot indices; `NULL`
`current_process` never occurs after `proc_init`, so `current` is a plain
slot index.  Fields of `process_t` that the scheduler logic never reads
(saved registers, stack, name, ppid, priority) are omitted.
-/

inductive PState where
  | unused | created | ready | running | blocked | zombie
deriving DecidableEq, Repr

structure Tcb where
  pid : Nat
  state : PState
  timeSlice : Nat
  totalTime : Nat
deriving DecidableEq, Repr

structure SchedState where
  table : Fin 64 → Tcb
  queue : List (Fin 64)
  current : Fin 64
  nextPid : Nat

/-- The idle/kernel TCB occupies slot 0 of `proc_table` (PID 0). -/
def idleIdx : Fin 64 := 0

/-- `proc_init`: clear the table, make slot 0 the RUNNING idle task. -/
def procInit : SchedState :=
  { table := fun i =>
      if i = idleIdx then { pid := 0, state := .running, timeSlice := 0, totalTime := 0 }
      else { pid := 0, state := .unused, timeSlice := 0, totalTime := 0 }
    queue := []
    current := idleIdx
    nextPid := 1 }

/-- `scheduler_add`: append a slot to the tail of the ready queue. -/
def schedulerAdd (s : SchedState) (i : Fin 64) : SchedState :=
  { s with queue := s.queue ++ [i] }

/-- `proc_alloc`: first slot `i ≥ 1` whose state is `PROC_UNUSED`. -/
def procAlloc (s : SchedState) : Option (Fin 64) :=
  (List.finRange 64).drop 1 |>.find? (fun i => (s.table i).state = .unused)

/-- Write one TCB slot of the table. -/
def setTcb (s : SchedState) (i : Fin 64) (t : Tcb) : SchedState :=
  { s with table := fun j => if j = i then t else s.table j }

/-- `proc_create`: allocate a slot, fill in the TCB (pid from the monotonic
counter, time slice 10), mark it READY and enqueue it.  Returns the state
unchanged when the table is full.  Stack/frame setup is I/O-free
bookkeeping of omitted fields and is not modelled. -/
def procCreate (s : SchedState) : SchedState :=
  match procAlloc s with
  | none => s
  | some i =>
      let s1 := setTcb s i
        { pid := s.nextPid, state := .ready, timeSlice := 10, totalTime := 0 }
      let s2 := { s1 with nextPid := s.nextPid + 1 }
      schedulerAdd s2 i

/-- `schedule`: pop the head of the ready queue, falling back to the idle
task when the queue is empty; if the selected task differs from `current`
and `current` is still RUNNING, re-enqueue `current` as READY; switch. -/
def schedule (s : SchedState) : SchedState :=
  let (next, queue1) :=
    match s.queue with
    | [] => (idleIdx, ([] : List (Fin 64)))
    | h :: t => (h, t)
  if next = s.current then s
  else
    let s1 := { s with queue := queue1 }
    let s2 :=
      if (s1.table s1.current).state = .running then
        schedulerAdd (setTcb s1 s1.current { s1.table s1.current with state := .ready })
          s1.current
      else s1
    let s3 := setTcb s2 next { s2.table next with state := .running }
    { s3 with current := next }

/-- The slot `schedule` switches to: head of the ready queue, idle when empty. -/
def scheduleNext (s : SchedState) : Fin 64 :=
  match s.queue with
  | [] => idleIdx
  | h :: _ => h

/-- `proc_yield` just calls `schedule`. -/
def procYield (s : SchedState) : SchedState := schedule s

/-- `proc_exit`: mark the current task ZOMBIE (unless it is the idle task)
and reschedule. -/
def procExit (s : SchedState) : SchedState :=
  if s.current = idleIdx then s
  else schedule (setTcb s s.current { s.table s.current with state := .zombie })

/-- The timer-interrupt handler `timer_handler`: decrement the running
task's time slice (and bump its total time); when it reaches zero, refill
the quantum and call `schedule`. -/
def timerTick (s : SchedState) : SchedState :=
  let s1 :=
    if (s.table s.current).timeSlice > 0 then
      setTcb s s.current
        { s.table s.current with
          timeSlice := (s.table s.current).timeSlice - 1
          totalTime := (s.table s.current).totalTime + 1 }
    else s
  if (s1.table s1.current).timeSlice = 0 then
    schedule (setTcb s1 s1.current { s1.table s1.current with timeSlice := 10 })
  else s1

/-- The operations quantified over by the scheduler claims. -/
inductive SchedOp where
  | create | yield | exit | sched | tick
deriving DecidableEq, Repr

def schedStep (s : SchedState) : SchedOp → SchedState
  | .create => procCreate s
  | .yield => procYield s
  | .exit => procExit s
  | .sched => schedule s
  | .tick => timerTick s

def schedRun (s : SchedState) (ops : List SchedOp) : SchedState :=
  ops.foldl schedStep s

/-! ## Hierarchical RAM filesystem (`src/kernel/fs/ramfs.c`)

`nodes[MAX_NODES]` with `MAX_NODES = 128`; a node's `parent` is a C `int`
(`-1` for the root at index 0).  The `created`/`modified` tick stamps and
the 4 KB `data` payload never influence `cmd_rm`, so `data` is kept as a
byte list and the stamps are omitted.  Out-of-range index arithmetic is
undefined behaviour in the C source; `getNode` totalizes it by returning
a FREE node.
-/

inductive NodeType where
  | free | file | dir
deriving DecidableEq, Repr

structure FsNode where
  name : List Char
  type : NodeType
  parent : Int
  size : Nat
  data : List Nat
deriving DecidableEq, Repr

def freeFsNode : FsNode :=
  { name := [], type := .free, parent := 0, size := 0, data := [] }

structure FsState where
  nodes : Fin 128 → FsNode
  currentDir : Nat

def getNode (s : FsState) (d : Nat) : FsNode :=
  if h : d < 128 then s.nodes ⟨d, h⟩ else freeFsNode

/-- `find_node_index`: first non-FREE node with the given parent and name. -/
def findNodeIndex (s : FsState) (parent : Int) (name : List Char) : Option (Fin 128) :=
  (List.finRange 128).find? fun i =>
    decide ((s.nodes i).type ≠ .free ∧ (s.nodes i).parent = parent ∧ (s.nodes i).name = name)

/-- The component-consuming loop of `resolve_path`.  A component is at most
`MAX_NAME - 1 = 31` characters (a longer run of non-`/` characters is
chunked, exactly as the C bound `i < MAX_NAME - 1` does); `.` is skipped,
`..` follows `parent` when it is non-negative, and any other component is
looked up in the current directory.  Every iteration consumes at least one
character, so the structural `fuel` argument (initialised to the path
length by `resolvePath`) is never exhausted; it exists only to make the
recursion structural. -/
def resolveLoop (s : FsState) : Nat → List Char → Nat → Option Nat
  | _, [], dir => some dir
  | 0, _ :: _, _ => none
  | fuel + 1, p, dir =>
    let comp := (p.takeWhile (· ≠ '/')).take 31
    let rest := p.drop comp.length
    let rest2 := if rest.headD 'x' = '/' then rest.drop 1 else rest
    if comp = [] then resolveLoop s fuel rest2 dir
    else if comp = ['.'] then resolveLoop s fuel rest2 dir
    else if comp = ['.', '.'] then
      resolveLoop s fuel rest2
        (if 0 ≤ (getNode s dir).parent then (getNode s dir).parent.toNat else dir)
    else
      match findNodeIndex s (dir : Int) comp with
      | none => none
      | some i => resolveLoop s fuel rest2 (i : Nat)

/-- `resolve_path`: empty or `"/"` is the root; an absolute path starts at
index 0, a relative one at `current_dir`. -/
def resolvePath (s : FsState) (path : List Char) : Option Nat :=
  if path = [] ∨ path = ['/'] then some 0
  else if path.headD 'x' = '/' then resolveLoop s path.length (path.drop 1) 0
  else resolveLoop s path.length path s.currentDir

/-- Argument parsing of `cmd_rm`: a leading `-` word sets `recursive` when
it starts with `-rf` or `-r`, and the target is the next word. -/
def rmParse (args : List Char) : Bool × List Char :=
  if args.headD 'x' = '-' then
    (args.take 3 = ['-', 'r', 'f'] ∨ args.take 2 = ['-', 'r'],
     (args.dropWhile (· ≠ ' ')).dropWhile (· = ' '))
  else (false, args)

/-- The removal sweep of `cmd_rm` once the target index is known: for a
directory, one pass over the whole array frees every node whose `parent`
is the doomed index; then the node itself is freed. -/
def rmSweep (s : FsState) (idx : Nat) : FsState :=
  let s1 :=
    if (getNode s idx).type = .dir then
      { s with nodes := fun i =>
          if (s.nodes i).parent = (idx : Int) then { s.nodes i with type := .free }
          else s.nodes i }
    else s
  { s1 with nodes := fun i =>
      if (i : Nat) = idx then { s1.nodes i with type := .free } else s1.nodes i }

/-- `cmd_rm`: parse flags and target, resolve, refuse the root and
non-recursive directory removal, then sweep.  Console output is ignored. -/
def cmdRm (s : FsState) (args : List Char) : FsState :=
  if args = [] then s
  else
    let pr := rmParse args
    match resolvePath s pr.2 with
    | none => s
    | some idx =>
      if idx = 0 then s
      else if (getNode s idx).type = .dir ∧ pr.1 = false then s
      else rmSweep s idx

/-! ## Signals (`src/kernel/proc/signal.c`)

Per-process state is a pending bitmap, a blocked bitmap (both `uint32_t`,
modelled as `Nat < 2^32`) and a 32-slot handler table.  `SIG_DFL` is the
null pointer, `SIG_IGN` the pointer `1`, and any other value a function
pointer; handlers are modelled as a tagged variant where a custom handler
carries an opaque identifier.  `signal_check` is modelled on one
process's state; the actions it triggers (calling a custom handler,
`proc_exit(128 + sig)`) are returned as data rather than executed. -/

inductive SigHandler where
  | dfl | ign | custom (f : Nat)
deriving DecidableEq, Repr

inductive SigAction where
  | exit (code : Nat)
  | handlerCall (f : Nat) (sig : Nat)
deriving DecidableEq, Repr

structure SigState where
  pending : Nat
  blocked : Nat
  handlers : Nat → SigHandler

/-- `pending &= ~(1 << sig)` on a `uint32_t`. -/
def clearSigBit (p : Nat) (sig : Nat) : Nat :=
  p &&& (0xFFFFFFFF ^^^ (1 <<< sig))

/-- The delivery loop of `signal_check`: scan signals `1..31` against the
`deliverable` snapshot; clear the pending bit of each hit; a `SIG_IGN`
handler `continue`s the scan, `SIG_DFL` takes the default action (ignore
for CHLD=17/CONT=18, the unimplemented stop for STOP=19, exit with
`128 + sig` otherwise) and any other handler is called; then the loop
breaks. -/
def sigCheckLoop (deliverable : Nat) : SigState → List Nat → SigState × Option SigAction
  | st, [] => (st, none)
  | st, sig :: rest =>
    if deliverable.testBit sig = false then sigCheckLoop deliverable st rest
    else
      let st1 := { st with pending := clearSigBit st.pending sig }
      match st.handlers sig with
      | .ign => sigCheckLoop deliverable st1 rest
      | .dfl =>
          if sig = 17 ∨ sig = 18 ∨ sig = 19 then (st1, none)
          else (st1, some (.exit (128 + sig)))
      | .custom f => (st1, some (.handlerCall f sig))

/-- `signal_check` for one process: compute the deliverable snapshot
`pending & ~blocked`; return unchanged when it is zero, else run the scan
over signals `1..31` in order. -/
def signalCheck (st : SigState) : SigState × Option SigAction :=
  let deliverable := st.pending &&& (0xFFFFFFFF ^^^ st.blocked)
  if deliverable = 0 then (st, none)
  else sigCheckLoop deliverable st ((List.range 32).drop 1)

/-! ## Paging (`src/kernel/mm/paging.c`)

The physical-page bitmap covers `32 MB / 4 KB = 8192` pages (bit set =
in use).  The two-level structure is modelled with the directory as a map
from `pd_index` to an optional page table: `none` stands for a directory
entry without `PAGE_PRESENT`, `some tbl` for a present entry whose table
holds raw 32-bit PTE values.  This absorbs the physical address stored in
the directory entry; it is faithful because the modelled operations
(`page_map`, `page_unmap`, `page_get_phys`) never free or overwrite a
page that holds a page table, so distinct present entries always refer to
distinct table memory.  The directory's own `write|user` bits are not
read by any modelled operation and are dropped. -/

structure PagingState where
  bitmap : Nat → Bool
  freePages : Nat
  dir : Nat → Option (Nat → Nat)

/-- `paging_init`: pages 0..255 (first 1 MB) and 256..1023 (kernel image)
are reserved; directory entry 0 points at the identity-mapping table
whose PTE `i` is `(i * PAGE_SIZE) | PRESENT | WRITE`. -/
def pagingInit : PagingState :=
  { bitmap := fun i => decide (i < 1024)
    freePages := 8192 - 1024
    dir := fun d => if d = 0 then some (fun i => i * 4096 ||| 3) else none }

/-- `find_free_page`: index of the first clear bit, `0xFFFFFFFF` if none.
The word-by-word C scan visits bits in increasing linear index order, so
it returns the least clear bit index. -/
def findFreePage (s : PagingState) : Nat :=
  match (List.range 8192).find? (fun i => ! s.bitmap i) with
  | some i => i
  | none => 0xFFFFFFFF

/-- `page_alloc`: first-fit allocation; returns the physical base address,
0 on exhaustion. -/
def pageAlloc (s : PagingState) : PagingState × Nat :=
  let page := findFreePage s
  if page = 0xFFFFFFFF then (s, 0)
  else
    ({ s with
        bitmap := fun j => if j = page then true else s.bitmap j
        freePages := s.freePages - 1 },
      page * 4096)

/-- Overwrite one PTE of the (present) table for `pdIndex`. -/
def setPte (s : PagingState) (pdIndex ptIndex v : Nat) : PagingState :=
  { s with dir := fun d =>
      if d = pdIndex then (s.dir d).map (fun tbl j => if j = ptIndex then v else tbl j)
      else s.dir d }

/-- `page_map`: locate the directory entry for `virt`; allocate and zero a
fresh table when absent (aborting if `page_alloc` returns 0); store
`(phys & 0xFFFFF000) | (flags & 0xFFF) | PRESENT` in the PTE.  The second
component reports whether the PTE was actually written ("succeeds"). -/
def pageMap (s : PagingState) (virt phys flags : Nat) : PagingState × Bool :=
  let pdIndex := virt >>> 22
  let ptIndex := (virt >>> 12) &&& 0x3FF
  let pte := (phys &&& 0xFFFFF000) ||| (flags &&& 0xFFF) ||| 1
  match s.dir pdIndex with
  | some _ => (setPte s pdIndex ptIndex pte, true)
  | none =>
    let al := pageAlloc s
    if al.2 = 0 then (al.1, false)
    else
      let s2 := { al.1 with dir := fun d =>
        if d = pdIndex then some (fun _ => 0) else al.1.dir d }
      (setPte s2 pdIndex ptIndex pte, true)

/-- `page_unmap`: clear the PTE when the directory entry is present. -/
def pageUnmap (s : PagingState) (virt : Nat) : PagingState :=
  let pdIndex := virt >>> 22
  let ptIndex := (virt >>> 12) &&& 0x3FF
  match s.dir pdIndex with
  | none => s
  | some _ => setPte s pdIndex ptIndex 0

/-- `page_get_phys`: walk the tables; 0 when the directory entry or the
PTE lacks `PAGE_PRESENT`, else `(pte & 0xFFFFF000) | (virt & 0xFFF)`. -/
def pageGetPhys (s : PagingState) (virt : Nat) : Nat :=
  let pdIndex := virt >>> 22
  let ptIndex := (virt >>> 12) &&& 0x3FF
  match s.dir pdIndex with
  | none => 0
  | some tbl =>
    if tbl ptIndex &&& 1 = 0 then 0
    else (tbl ptIndex &&& 0xFFFFF000) ||| (virt &&& 0xFFF)

/-- Mapping operations interleaved between a `page_map` and the matching
`page_unmap` in claim C4. -/
inductive PageOp where
  | map (virt phys flags : Nat)
  | unmap (virt : Nat)

/-- The virtual page number an operation touches. -/
def PageOp.vpn : PageOp → Nat
  | .map virt _ _ => virt >>> 12
  | .unmap virt => virt >>> 12

def pageStep (s : PagingState) : PageOp → PagingState
  | .map virt phys flags => (pageMap s virt phys flags).1
  | .unmap virt => pageUnmap s virt

def pageRun (s : PagingState) (ops : List PageOp) : PagingState :=
  ops.foldl pageStep s

/-! ## Kernel heap (`src/kernel/mm/memory.c`)

The heap is one 1 MB arena at `HEAP_START = 0x100000`; each block is an
intrusive 12-byte header (`uint32 size; uint8 free; struct block *next`
with i386 alignment) followed by the payload.  The address-ordered
`next`-linked block list is modelled as a `List` of `(size, free)` pairs;
block addresses are recovered from the arena base by summing
`12 + size` over the predecessors, exactly as the headers are laid out.
`total_allocated`/`total_free` are the two global counters read by
`mm_stats`. -/

structure MBlock where
  size : Nat
  free : Bool
deriving DecidableEq, Repr

structure HeapState where
  blocks : List MBlock
  allocated : Nat
  freeBytes : Nat
deriving DecidableEq, Repr

def HEAP_START : Nat := 0x100000
def HEAP_SIZE : Nat := 0x100000
/-- `sizeof(block_t)` on i386: 4 (size) + 1 (free) + 3 padding + 4 (next). -/
def HDR_SIZE : Nat := 12

/-- `mm_init`: the whole arena is one free block. -/
def mmInit : HeapState :=
  { blocks := [{ size := HEAP_SIZE - HDR_SIZE, free := true }]
    allocated := 0
    freeBytes := HEAP_SIZE - HDR_SIZE }

/-- The scan loop of `kmalloc`: first free block with `size ≥ n`; split
when `size > n + sizeof(block_t) + 16`; returns the updated list and, on
success, the payload address together with the size charged to the
counters (the block's final `size` field). -/
def kmallocGo (addr n : Nat) : List MBlock → List MBlock × Option (Nat × Nat)
  | [] => ([], none)
  | b :: rest =>
    if b.free ∧ n ≤ b.size then
      if b.size > n + HDR_SIZE + 16 then
        ({ size := n, free := false } :: { size := b.size - n - HDR_SIZE, free := true } :: rest,
          some (addr + HDR_SIZE, n))
      else
        ({ b with free := false } :: rest, some (addr + HDR_SIZE, b.size))
    else
      let r := kmallocGo (addr + HDR_SIZE + b.size) n rest
      (b :: r.1, r.2)

/-- `kmalloc`: on success the chosen block's size is added to
`total_allocated` and removed from `total_free`. -/
def kmalloc (s : HeapState) (n : Nat) : HeapState × Option Nat :=
  match kmallocGo HEAP_START n s.blocks with
  | (bs, some (payload, sz)) =>
    ({ blocks := bs, allocated := s.allocated + sz, freeBytes := s.freeBytes - sz },
      some payload)
  | (_, none) => (s, none)

/-- Locate the block whose payload starts at `a` and flip it free,
returning its `size` field.  This models `kfree`'s pointer arithmetic
`(block_t *)((uint8_t *)ptr - sizeof(block_t))`: for a pointer into the
arena the header found there is exactly the list entry at that offset.
A pointer matching no block is undefined behaviour in C and is modelled
as a no-op (the heap-conservation claim only quantifies over traces that
free genuine allocation results). -/
def kfreeGo (addr a : Nat) : List MBlock → List MBlock × Option Nat
  | [] => ([], none)
  | b :: rest =>
    if addr + HDR_SIZE = a then ({ b with free := true } :: rest, some b.size)
    else
      let r := kfreeGo (addr + HDR_SIZE + b.size) a rest
      (b :: r.1, r.2)

/-- `kfree`: null is ignored; otherwise the header is flipped free and its
size subtracted from `total_allocated` (unconditionally, as in C). -/
def kfree (s : HeapState) (a : Nat) : HeapState :=
  if a = 0 then s
  else
    match kfreeGo HEAP_START a s.blocks with
    | (bs, some sz) =>
      { blocks := bs, allocated := s.allocated - sz, freeBytes := s.freeBytes + sz }
    | (_, none) => s

/-- Does `a` point at the payload of a currently busy block? -/
def isBusyPtr (addr a : Nat) : List MBlock → Bool
  | [] => false
  | b :: rest =>
    if addr + HDR_SIZE = a then !b.free
    else isBusyPtr (addr + HDR_SIZE + b.size) a rest

inductive HeapOp where
  | malloc (n : Nat)
  | free (a : Nat)

def heapStep (s : HeapState) : HeapOp → HeapState
  | .malloc n => (kmalloc s n).1
  | .free a => kfree s a

def heapRun (s : HeapState) (ops : List HeapOp) : HeapState :=
  ops.foldl heapStep s

/-- Traces in which every `kfree` argument is, at the moment of the call,
the payload pointer of a busy block — i.e. a pointer previously returned
by `kmalloc` and not yet freed (allocation only ever turns a block busy
when returning its payload pointer, and only `kfree` turns it free
again). -/
inductive ValidHeapOps : HeapState → List HeapOp → Prop where
  | nil (s : HeapState) : ValidHeapOps s []
  | malloc (s : HeapState) (n : Nat) (ops : List HeapOp) :
      ValidHeapOps (heapStep s (.malloc n)) ops → ValidHeapOps s (.malloc n :: ops)
  | free (s : HeapState) (a : Nat) (ops : List HeapOp) :
      isBusyPtr HEAP_START a s.blocks = true →
      ValidHeapOps (heapStep s (.free a)) ops → ValidHeapOps s (.free a :: ops)

/-- Total size of busy blocks: what `total_allocated` should report. -/
def busySum (bs : List MBlock) : Nat :=
  ((bs.filter (fun b => !b.free)).map (fun b => b.size)).sum

/-! ## Byte access helper

C reads packet bytes by index; `byteAt` is `pkt[i]` for the byte lists
used below (all indices exercised by the claims are in range). -/

def byteAt (pkt : List Nat) (i : Nat) : Nat := pkt.getD i 0

/-! ## TCP (`src/kernel/net/tcp.c`)

`tcp_sockets[MAX_TCP_SOCKETS]` with `MAX_TCP_SOCKETS = 16` is modelled as
a list of socket records; `recv_buf`/`recv_len` become a byte list.  All
`uint32_t` sequence arithmetic is taken `% 2^32`.  `tcp_send_segment`
builds an Ethernet+IP+TCP frame from the socket's fields at call time and
transmits it; the model records exactly those TCP header fields as a
`SegOut` value (framing, checksums and the ARP resolution step are
outside the state the claims speak about; emission is modelled as
succeeding). -/

inductive TcpState where
  | closed | listen | synSent | synRcvd | established
  | finWait1 | finWait2 | closeWait | closing | lastAck | timeWait
deriving DecidableEq, Repr

structure TcpSocket where
  state : TcpState
  localPort : Nat
  remotePort : Nat
  remoteIp : Nat
  seqNum : Nat
  ackNum : Nat
  recvWindow : Nat
  recvBuf : List Nat
  inUse : Bool
deriving DecidableEq, Repr

def TCP_FIN : Nat := 0x01
def TCP_SYN : Nat := 0x02
def TCP_PSH : Nat := 0x08
def TCP_ACK : Nat := 0x10

/-- The TCP header fields `tcp_send_segment` writes into the outgoing
frame, taken from the socket at the moment of the call. -/
structure SegOut where
  srcPort : Nat
  dstPort : Nat
  seq : Nat
  ack : Nat
  flags : Nat
  window : Nat
  payload : List Nat
deriving DecidableEq, Repr

def mkSegment (s : TcpSocket) (flags : Nat) (payload : List Nat) : SegOut :=
  { srcPort := s.localPort, dstPort := s.remotePort, seq := s.seqNum,
    ack := s.ackNum, flags := flags, window := s.recvWindow, payload := payload }

/-- Header-field extraction of `tcp_handle` (big-endian bytes). -/
def tcpSrcPort (pkt : List Nat) : Nat := byteAt pkt 0 <<< 8 ||| byteAt pkt 1
def tcpDstPort (pkt : List Nat) : Nat := byteAt pkt 2 <<< 8 ||| byteAt pkt 3
def tcpSeq (pkt : List Nat) : Nat :=
  byteAt pkt 4 <<< 24 ||| byteAt pkt 5 <<< 16 ||| byteAt pkt 6 <<< 8 ||| byteAt pkt 7
def tcpAckNo (pkt : List Nat) : Nat :=
  byteAt pkt 8 <<< 24 ||| byteAt pkt 9 <<< 16 ||| byteAt pkt 10 <<< 8 ||| byteAt pkt 11
def tcpFlags (pkt : List Nat) : Nat := byteAt pkt 13
def tcpDataOffset (pkt : List Nat) : Nat := (byteAt pkt 12 >>> 4) * 4

/-- The socket-matching loop: first in-use socket whose `local_port` is
the destination port and which either LISTENs or has the sender as its
recorded peer. -/
def tcpFindSock (socks : List TcpSocket) (dstPort srcIp srcPort : Nat) : Option Nat :=
  socks.findIdx? fun s =>
    s.inUse && s.localPort == dstPort &&
      (s.state == .listen || (s.remotePort == srcPort && s.remoteIp == srcIp))

def defaultTcpSocket : TcpSocket :=
  { state := .closed, localPort := 0, remotePort := 0, remoteIp := 0,
    seqNum := 0, ackNum := 0, recvWindow := 4096, recvBuf := [], inUse := false }

/-- The per-state `switch` of `tcp_handle`, acting on the matched socket;
returns the updated socket and the segments sent.  In ESTABLISHED the
`uint16_t data_len = len - data_offset` subtraction is computed with the
C wrap-arounds. -/
def tcpMachine (s : TcpSocket) (pktLen srcIp srcPort seq flags dataOffset : Nat)
    (pktData : List Nat) : TcpSocket × List SegOut :=
  match s.state with
  | .listen =>
    if flags &&& TCP_SYN ≠ 0 then
      let s1 := { s with remoteIp := srcIp, remotePort := srcPort,
                         ackNum := (seq + 1) % 2 ^ 32, state := .synRcvd }
      let out := mkSegment s1 (TCP_SYN ||| TCP_ACK) []
      ({ s1 with seqNum := (s1.seqNum + 1) % 2 ^ 32 }, [out])
    else (s, [])
  | .synSent =>
    if flags &&& (TCP_SYN ||| TCP_ACK) = TCP_SYN ||| TCP_ACK then
      let s1 := { s with ackNum := (seq + 1) % 2 ^ 32, state := .established }
      (s1, [mkSegment s1 TCP_ACK []])
    else (s, [])
  | .synRcvd =>
    if flags &&& TCP_ACK ≠ 0 then ({ s with state := .established }, [])
    else (s, [])
  | .established =>
    if flags &&& TCP_FIN ≠ 0 then
      let s1 := { s with ackNum := (seq + 1) % 2 ^ 32, state := .closeWait }
      (s1, [mkSegment s1 TCP_ACK []])
    else if flags &&& TCP_ACK ≠ 0 then
      let dataLen := ((pktLen + 2 ^ 32 - dataOffset) % 2 ^ 32) % 2 ^ 16
      if dataLen > 0 then
        let copy := min dataLen (4096 - s.recvBuf.length)
        let s1 := { s with recvBuf := s.recvBuf ++ (pktData.drop dataOffset).take copy,
                           ackNum := (s.ackNum + dataLen) % 2 ^ 32 }
        (s1, [mkSegment s1 TCP_ACK []])
      else (s, [])
    else (s, [])
  | .finWait1 =>
    let s1 := if flags &&& TCP_ACK ≠ 0 then { s with state := .finWait2 } else s
    if flags &&& TCP_FIN ≠ 0 then
      let s2 := { s1 with ackNum := (seq + 1) % 2 ^ 32 }
      ({ s2 with state := .timeWait }, [mkSegment s2 TCP_ACK []])
    else (s1, [])
  | .finWait2 =>
    if flags &&& TCP_FIN ≠ 0 then
      let s2 := { s with ackNum := (seq + 1) % 2 ^ 32 }
      ({ s2 with state := .timeWait }, [mkSegment s2 TCP_ACK []])
    else (s, [])
  | .closeWait => (s, [])
  | .lastAck =>
    if flags &&& TCP_ACK ≠ 0 then ({ s with state := .closed, inUse := false }, [])
    else (s, [])
  | .closed => (s, [])
  | .closing => (s, [])
  | .timeWait => (s, [])

/-- `tcp_handle`: drop short segments, find the matching socket (silently
dropping when none matches), then run the state machine on it. -/
def tcpHandle (socks : List TcpSocket) (pkt : List Nat) (srcIp : Nat) :
    List TcpSocket × List SegOut :=
  if pkt.length < 20 then (socks, [])
  else
    match tcpFindSock socks (tcpDstPort pkt) srcIp (tcpSrcPort pkt) with
    | none => (socks, [])
    | some i =>
      let r := tcpMachine (socks.getD i defaultTcpSocket) pkt.length srcIp
        (tcpSrcPort pkt) (tcpSeq pkt) (tcpFlags pkt) (tcpDataOffset pkt) pkt
      (socks.set i r.1, r.2)

/-! ## Shell pipeline engine (`src/kernel/shell_pipe.c`)

`find_operator` scans left to right; its two inner quote-skipping `while`
loops are rendered as a three-mode scanner (`normal`, inside a double
quote, inside a single quote), which performs exactly the same character
steps.  Operator tests read `p[0]` and `p[1]`; at the last character
`p[1]` is the NUL terminator, modelled by a `headD` default of `\x00`.
The C return value 0-with-`*pos`-unset is `none`; an operator is
`some (code, position)` with the codes of the C comment (1 `|`, 2 `>`,
3 `>>`, 4 `<`, 5 `&&`, 6 `||`, 7 `;`).

`shell_execute_advanced` copies at most 511 characters of its input,
splits at the found operator and dispatches; its observable behaviour is
modelled as the list of executions it performs, in order.  The recursion
for `&&` and `;` consumes at least one character per step, so the `fuel`
argument (initialised above the input length) is never exhausted. -/

def opAt : List Char → Option Nat
  | [] => none
  | c1 :: rest =>
    let c2 := rest.headD (Char.ofNat 0)
    if c1 = '|' ∧ c2 = '|' then some 6
    else if c1 = '&' ∧ c2 = '&' then some 5
    else if c1 = '>' ∧ c2 = '>' then some 3
    else if c1 = '|' then some 1
    else if c1 = '>' then some 2
    else if c1 = '<' then some 4
    else if c1 = ';' then some 7
    else none

inductive ScanMode where
  | normal | inDouble | inSingle
deriving DecidableEq, Repr

def findOpAux : ScanMode → List Char → Nat → Option (Nat × Nat)
  | _, [], _ => none
  | .normal, c :: rest, i =>
    if c = '"' then findOpAux .inDouble rest (i + 1)
    else if c = '\'' then findOpAux .inSingle rest (i + 1)
    else
      match opAt (c :: rest) with
      | some op => some (op, i)
      | none => findOpAux .normal rest (i + 1)
  | .inDouble, c :: rest, i =>
    if c = '"' then findOpAux .normal rest (i + 1) else findOpAux .inDouble rest (i + 1)
  | .inSingle, c :: rest, i =>
    if c = '\'' then findOpAux .normal rest (i + 1) else findOpAux .inSingle rest (i + 1)

def findOperator (cmd : List Char) : Option (Nat × Nat) :=
  findOpAux .normal cmd 0

def isShellWs (c : Char) : Bool := c = ' ' ∨ c = '\t'

/-- `trim`: strip leading and trailing blanks/tabs. -/
def trimChars (l : List Char) : List Char :=
  ((l.dropWhile isShellWs).reverse.dropWhile isShellWs).reverse

/-- One observable execution performed by `shell_execute_advanced`:
a plain `shell_execute_simple`, an `execute_with_pipe_input`, or a
filesystem read/write of a redirection target.  (For `<` the C code runs
the left command only when the file read succeeds; file contents live
outside this model, so the event records the dispatch.) -/
inductive ShellEv where
  | simple (cmd : List Char)
  | withPipeInput (cmd : List Char)
  | fsReadEv (name : List Char)
  | fsWriteEv (name : List Char)
deriving DecidableEq, Repr

def shellExecGo : Nat → List Char → List ShellEv
  | 0, _ => []
  | fuel + 1, input =>
    let cmdline := input.take 511
    match findOperator cmdline with
    | none => [.simple cmdline]
    | some (op, pos) =>
      let skip := if op = 3 ∨ op = 5 ∨ op = 6 then 2 else 1
      let left := trimChars (cmdline.take pos)
      let right := trimChars (cmdline.drop (pos + skip))
      match op with
      | 1 => [.simple left, .withPipeInput right]
      | 2 => [.simple left, .fsWriteEv right]
      | 3 => [.fsReadEv right, .simple left, .fsWriteEv right]
      | 4 => [.fsReadEv right, .withPipeInput left]
      | 5 => .simple left :: shellExecGo fuel right
      | 6 => [.simple left]
      | 7 => .simple left :: shellExecGo fuel right
      | _ => []

def shellExecuteAdvanced (input : List Char) : List ShellEv :=
  shellExecGo (input.length + 1) input

/-! ## ARP cache (`src/kernel/net/arp.c`)

`arp_cache[ARP_CACHE_SIZE]` with `ARP_CACHE_SIZE = 16`; modelled as a
list of entries (the theorems fix the length where the C array bound
matters).  `timer_get_ticks()` enters as an explicit timestamp
argument. -/

structure ArpEntry where
  ip : Nat
  mac : List Nat
  timestamp : Nat
  valid : Bool
deriving DecidableEq, Repr

def emptyArpEntry : ArpEntry := { ip := 0, mac := [0, 0, 0, 0, 0, 0], timestamp := 0, valid := false }

/-- `arp_lookup`: first valid entry for `ip` (the C out-parameter copy of
the MAC becomes the returned value). -/
def arpLookup (cache : List ArpEntry) (ip : Nat) : Option (List Nat) :=
  (cache.find? fun e => e.valid && e.ip == ip).map (fun e => e.mac)

/-- First phase of `arp_add`: refresh the first valid entry for `ip`. -/
def arpUpdateFirst (ip : Nat) (mac : List Nat) (t : Nat) : List ArpEntry → List ArpEntry
  | [] => []
  | e :: rest =>
    if e.valid ∧ e.ip = ip then { e with mac := mac, timestamp := t } :: rest
    else e :: arpUpdateFirst ip mac t rest

/-- Second phase of `arp_add`: index of the first invalid slot, else of
the running strict-minimum timestamp (initial sentinel `0xFFFFFFFF`). -/
def arpFindSlotGo (i oldest oldestTime : Nat) : List ArpEntry → Nat
  | [] => oldest
  | e :: rest =>
    if !e.valid then i
    else if e.timestamp < oldestTime then arpFindSlotGo (i + 1) i e.timestamp rest
    else arpFindSlotGo (i + 1) oldest oldestTime rest

def arpFindSlot (cache : List ArpEntry) : Nat :=
  arpFindSlotGo 0 0 0xFFFFFFFF cache

/-- `arp_add`: refresh an existing valid entry for `ip`, else overwrite
the empty-or-oldest slot. -/
def arpAdd (cache : List ArpEntry) (ip : Nat) (mac : List Nat) (t : Nat) : List ArpEntry :=
  if cache.any (fun e => e.valid && e.ip == ip) then arpUpdateFirst ip mac t cache
  else cache.set (arpFindSlot cache) { ip := ip, mac := mac, timestamp := t, valid := true }

def arpSenderMac (pkt : List Nat) : List Nat := (pkt.drop 8).take 6
def arpSenderIp (pkt : List Nat) : Nat :=
  byteAt pkt 14 <<< 24 ||| byteAt pkt 15 <<< 16 ||| byteAt pkt 16 <<< 8 ||| byteAt pkt 17
def arpTargetIp (pkt : List Nat) : Nat :=
  byteAt pkt 24 <<< 24 ||| byteAt pkt 25 <<< 16 ||| byteAt pkt 26 <<< 8 ||| byteAt pkt 27
def arpOpcode (pkt : List Nat) : Nat := byteAt pkt 6 <<< 8 ||| byteAt pkt 7

/-- `arp_handle` (`packet` points at the 28-byte ARP header): packets
shorter than 28 bytes are dropped; every other packet updates the cache
with the sender's `(ip, mac)`; a request for our IP additionally sends a
unicast reply (returned as the Boolean flag; the reply frame itself does
not touch the cache). -/
def arpHandle (cache : List ArpEntry) (pkt : List Nat) (t ourIp : Nat) :
    List ArpEntry × Bool :=
  if pkt.length < 28 then (cache, false)
  else
    (arpAdd cache (arpSenderIp pkt) (arpSenderMac pkt) t,
      arpOpcode pkt == 1 && arpTargetIp pkt == ourIp)

/-! ## Pipes (`src/kernel/proc/pipe.c`)

`pipes[MAX_PIPES]` with `MAX_PIPES = 32`; a descriptor encodes
`pipe_id = fd / 2` and the end in the low bit (even = read, odd =
write).  The blocking loops spin in `proc_yield()`; with no concurrent
task able to run inside the modelled call, a call that enters such a loop
never returns, which is modelled as `none`. -/

structure KPipe where
  buffer : Nat → Nat
  readPos : Nat
  writePos : Nat
  count : Nat
  readEndOpen : Bool
  writeEndOpen : Bool
  inUse : Bool

structure PipeSys where
  pipes : Nat → KPipe

/-- `pipe_from_fd`: `none` when the id is out of range or the slot is
unused; otherwise the pipe id and the write-end flag `fd & 1`. -/
def pipeFromFd (sys : PipeSys) (fd : Nat) : Option (Nat × Bool) :=
  let pipeId := fd / 2
  if 32 ≤ pipeId then none
  else if !(sys.pipes pipeId).inUse then none
  else some (pipeId, fd &&& 1 = 1)

def setPipe (sys : PipeSys) (pipeId : Nat) (p : KPipe) : PipeSys :=
  { pipes := fun j => if j = pipeId then p else sys.pipes j }

/-- The byte-copy loop of `pipe_write`; `none` when the buffer fills with
the read end still open (the C code then spins in `proc_yield`). -/
def pipeWriteLoop (p : KPipe) (written : Nat) : List Nat → Option (Int × KPipe)
  | [] => some ((written : Int), p)
  | byte :: rest =>
    if 4096 ≤ p.count then none
    else
      pipeWriteLoop
        { p with buffer := fun j => if j = p.writePos then byte else p.buffer j,
                 writePos := (p.writePos + 1) % 4096,
                 count := p.count + 1 }
        (written + 1) rest

/-- `pipe_write`: reject a non-write descriptor or a broken pipe with
`-1` and no state change; otherwise copy bytes. -/
def pipeWrite (sys : PipeSys) (fd : Nat) (data : List Nat) : Option (Int × PipeSys) :=
  match pipeFromFd sys fd with
  | none => some (-1, sys)
  | some (pipeId, isWrite) =>
    if !isWrite then some (-1, sys)
    else if !(sys.pipes pipeId).readEndOpen then some (-1, sys)
    else
      (pipeWriteLoop (sys.pipes pipeId) 0 data).map
        (fun r => (r.1, setPipe sys pipeId r.2))

/-- The drain loop of `pipe_read` (`read_count < len && count > 0`). -/
def pipeReadLoop : KPipe → Nat → List Nat → KPipe × List Nat
  | p, 0, acc => (p, acc)
  | p, len + 1, acc =>
    if p.count = 0 then (p, acc)
    else
      pipeReadLoop
        { p with readPos := (p.readPos + 1) % 4096, count := p.count - 1 }
        len (acc ++ [p.buffer p.readPos])

/-- `pipe_read`: reject a write descriptor with `-1` and no state change;
report EOF (0) on an empty buffer with the write end closed; block
(`none`) on an empty buffer with the write end open; else drain. -/
def pipeRead (sys : PipeSys) (fd : Nat) (len : Nat) :
    Option (Int × List Nat × PipeSys) :=
  match pipeFromFd sys fd with
  | none => some (-1, [], sys)
  | some (pipeId, isWrite) =>
    if isWrite then some (-1, [], sys)
    else
      let p := sys.pipes pipeId
      if p.count = 0 then
        if !p.writeEndOpen then some (0, [], sys)
        else none
      else
        let r := pipeReadLoop p len []
        some ((r.2.length : Int), r.2, setPipe sys pipeId r.1)

/-! ## Claim-side auxiliary definitions

Definitions below formalise the vocabulary of the claims (deliverable
signals, quoting, valid heap traces) and fix the concrete inputs used by
counterexamples and witnesses. -/

/-- `pending & ~blocked`, the snapshot `signal_check` scans. -/
def deliverableMask (st : SigState) : Nat :=
  st.pending &&& (0xFFFFFFFF ^^^ st.blocked)

/-- The action `signal_check` performs for signal `s` when it stops at
`s`: nothing for an explicitly ignored handler (never chosen), nothing
for default CHLD/CONT/STOP, `proc_exit(128+s)` for other defaults, a call
for a custom handler. -/
def sigDefaultAct (st : SigState) (s : Nat) : Option SigAction :=
  match st.handlers s with
  | .ign => none
  | .dfl => if s = 17 ∨ s = 18 ∨ s = 19 then none else some (.exit (128 + s))
  | .custom f => some (.handlerCall f s)

/-- The signal at which the scan stops and acts: the lowest deliverable
signal in `1..31` whose handler is not `SIG_IGN`. -/
def sigFire (st : SigState) : Option Nat :=
  ((List.range 32).drop 1).find? fun s =>
    (deliverableMask st).testBit s && !(decide (st.handlers s = .ign))

/-- The signals whose pending bits one `signal_check` clears: every
deliverable signal scanned before the stop signal (all of them ignored),
plus the stop signal itself; when no deliverable signal has a
non-`SIG_IGN` handler, every deliverable signal in `1..31`. -/
def sigCleared (st : SigState) : List Nat :=
  match sigFire st with
  | some sf =>
      (((List.range 32).drop 1).takeWhile (fun s => decide (s ≠ sf))).filter
        (fun s => (deliverableMask st).testBit s) ++ [sf]
  | none => ((List.range 32).drop 1).filter (fun s => (deliverableMask st).testBit s)

/-- The pending bits one pass of the delivery loop clears, as a pure
function of the deliverable snapshot `d`, the (unchanging) handler table
`h` and the list of signal numbers scanned: every deliverable signal
whose handler is `SIG_IGN` until the first deliverable signal that is not
ignored, which is also cleared and stops the scan. -/
def loopCleared (d : Nat) (h : Nat → SigHandler) : List Nat → List Nat
  | [] => []
  | s :: rest =>
    if d.testBit s then
      if h s = .ign then s :: loopCleared d h rest else [s]
    else loopCleared d h rest

/-- The action one pass of the delivery loop performs, as a pure function
of the deliverable snapshot, the handler table and the scanned list. -/
def loopAction (d : Nat) (h : Nat → SigHandler) : List Nat → Option SigAction
  | [] => none
  | s :: rest =>
    if d.testBit s then
      match h s with
      | .ign => loopAction d h rest
      | .dfl => if s = 17 ∨ s = 18 ∨ s = 19 then none else some (.exit (128 + s))
      | .custom f => some (.handlerCall f s)
    else loopAction d h rest

/-- Lines in which the shell operator characters `| > < & ;` occur only
inside single- or double-quoted substrings: a line is empty, or a
non-operator non-quote character followed by such a line, or a balanced
quoted substring followed by such a line. -/
inductive QuotedOnly : List Char → Prop where
  | nil : QuotedOnly []
  | plain (c : Char) (l : List Char) :
      c ∉ ['|', '>', '<', '&', ';'] → c ≠ '"' → c ≠ '\'' →
      QuotedOnly l → QuotedOnly (c :: l)
  | dquoted (s l : List Char) :
      '"' ∉ s → QuotedOnly l → QuotedOnly ('"' :: s ++ '"' :: l)
  | squoted (s l : List Char) :
      '\'' ∉ s → QuotedOnly l → QuotedOnly ('\'' :: s ++ '\'' :: l)

/-- A filesystem with `/a/b/c` (directories `a`, `b`, file `c`). -/
def exFs : FsState :=
  { nodes := fun i =>
      if i = 0 then { name := ['/'], type := .dir, parent := -1, size := 0, data := [] }
      else if i = 1 then { name := ['a'], type := .dir, parent := 0, size := 0, data := [] }
      else if i = 2 then { name := ['b'], type := .dir, parent := 1, size := 0, data := [] }
      else if i = 3 then { name := ['c'], type := .file, parent := 2, size := 0, data := [] }
      else freeFsNode
    currentDir := 0 }

/-- Signal state with signals 1 and 2 pending, nothing blocked, signal 1
explicitly ignored and signal 2 on its default handler. -/
def exSig : SigState :=
  { pending := 6, blocked := 0, handlers := fun s => if s = 1 then .ign else .dfl }

/-- Signal state with only signal 3 pending, everything on defaults. -/
def exSig2 : SigState :=
  { pending := 8, blocked := 0, handlers := fun _ => .dfl }

/-- A socket listening on port 9000 with initial sequence number 1000. -/
def exListenSock : TcpSocket :=
  { state := .listen, localPort := 9000, remotePort := 0, remoteIp := 0,
    seqNum := 1000, ackNum := 0, recvWindow := 4096, recvBuf := [], inUse := true }

/-- A SYN segment from port 5000 with sequence number 2000. -/
def exSynPkt : List Nat :=
  [0x13, 0x88, 0x23, 0x28, 0, 0, 0x07, 0xD0, 0, 0, 0, 0, 0x50, 0x02, 0x10, 0, 0, 0, 0, 0]

/-- The peer's handshake-completing ACK (seq 2001, ack 1001). -/
def exAckPkt : List Nat :=
  [0x13, 0x88, 0x23, 0x28, 0, 0, 0x07, 0xD1, 0, 0, 0x03, 0xE9, 0x50, 0x10, 0x10, 0, 0, 0, 0, 0]

/-- A 28-byte ARP request from `10.0.0.5` / `aa:bb:cc:dd:ee:ff` for `10.0.0.1`. -/
def exArpPkt : List Nat :=
  [0, 1, 8, 0, 6, 4, 0, 1,
   0xAA, 0xBB, 0xCC, 0xDD, 0xEE, 0xFF,
   10, 0, 0, 5,
   0, 0, 0, 0, 0, 0,
   10, 0, 0, 1]

def exPipe : KPipe :=
  { buffer := fun _ => 0, readPos := 0, writePos := 0, count := 0,
    readEndOpen := true, writeEndOpen := true, inUse := true }

def exPipeSys : PipeSys := { pipes := fun _ => exPipe }

/-! # Theorems -/

/-! ## Claim C1 — idle task and the ready queue

The claim asserts that the idle TCB (slot 0, PID 0) is never on the ready
queue in any reachable state and that `schedule` selects it only when the
queue is empty.  The code falsifies both parts: `schedule` re-enqueues
whichever task is current whenever its state is still RUNNING — the idle
task included. -/

/-- Claim C1, counterexample.  After `proc_create` followed by `schedule`
(both operations the claim quantifies over), the idle TCB sits on the
ready queue; after one more `proc_create`, `schedule` selects the idle
task from the head of a non-empty queue.  The claim predicts that the
idle TCB is never enqueued and is selected only when the queue is
empty. -/
theorem C1_counterexample :
    idleIdx ∈ (schedRun procInit [.create, .sched]).queue ∧
    scheduleNext (schedRun procInit [.create, .sched, .create]) = idleIdx ∧
    (schedRun procInit [.create, .sched, .create]).queue ≠ [] := by
  decide

/-- Claim C1, amended: the idle TCB can be placed on the ready queue
(when `schedule` preempts it while RUNNING, as the counterexample
reaches), and `schedule` switches to the task `scheduleNext` picks —
which is the idle task exactly when the ready queue is empty (the
fallback) or the idle TCB itself is at the head of the queue. -/
theorem C1_idle_selection (s : SchedState) :
    (schedule s).current = scheduleNext s ∧
    (scheduleNext s = idleIdx ↔ s.queue = [] ∨ s.queue.head? = some idleIdx) := by
  constructor
  · show (schedule s).current = scheduleNext s
    unfold schedule scheduleNext
    rcases hq : s.queue with _ | ⟨h, t⟩ <;> simp only <;> split_ifs with h1 <;>
      first
        | exact h1.symm
        | rfl
  · unfold scheduleNext
    rcases s.queue with _ | ⟨h, t⟩ <;> simp

/-! ## Claim C10 — pipe descriptor polarity -/

/-- Claim C10: `pipe_write` on an even (read-end) descriptor and
`pipe_read` on an odd (write-end) descriptor both fail with `-1` and
leave the whole pipe table — buffer, positions, count, open flags —
untouched, for every pipe state, buffer content and length. -/
theorem C10_pipe_polarity (sys : PipeSys) (fd : Nat) (data : List Nat) (len : Nat) :
    (fd % 2 = 0 → pipeWrite sys fd data = some (-1, sys)) ∧
    (fd % 2 = 1 → pipeRead sys fd len = some (-1, [], sys)) := by
  have hand : fd &&& 1 = fd % 2 := Nat.and_one_is_mod fd
  constructor
  · intro h
    unfold pipeWrite pipeFromFd
    by_cases h1 : 32 ≤ fd / 2
    · simp [h1]
    · by_cases h2 : (sys.pipes (fd / 2)).inUse <;> simp [h1, h2, hand, h]
  · intro h
    unfold pipeRead pipeFromFd
    by_cases h1 : 32 ≤ fd / 2
    · simp [h1]
    · by_cases h2 : (sys.pipes (fd / 2)).inUse <;> simp [h1, h2, hand, h]

/-- Claim C10, witness: a concrete open pipe at slot 0; descriptor 0 is
the read end, descriptor 1 the write end. -/
theorem C10_witness :
    (0 : Nat) % 2 = 0 ∧ (1 : Nat) % 2 = 1 ∧
    pipeWrite exPipeSys 0 [1, 2] = some (-1, exPipeSys) ∧
    pipeRead exPipeSys 1 4 = some (-1, [], exPipeSys) :=
  ⟨rfl, rfl, (C10_pipe_polarity exPipeSys 0 [1, 2] 4).1 rfl,
    (C10_pipe_polarity exPipeSys 1 [1, 2] 4).2 rfl⟩

/-! ## Claim C9 — ARP cache consistency -/

/-- The slot-selection loop stays inside the array: its result is either
some scanned position or the running `oldest`, which starts in range. -/
theorem arpFindSlotGo_lt (l : List ArpEntry) :
    ∀ (i oldest ot : Nat), oldest < i + l.length →
      arpFindSlotGo i oldest ot l < i + l.length := by
  induction l with
  | nil =>
    intro i oldest ot h
    simpa [arpFindSlotGo] using h
  | cons e rest ih =>
    intro i oldest ot h
    simp only [arpFindSlotGo, List.length_cons] at h ⊢
    split_ifs with h1 h2
    · omega
    · have := ih (i + 1) i e.timestamp (by omega)
      omega
    · have := ih (i + 1) oldest ot (by omega)
      omega

/-- Refreshing the first valid entry for `ip` makes `arp_lookup ip`
return the new MAC, provided some valid entry for `ip` exists. -/
theorem arpLookup_updateFirst (ip : Nat) (mac : List Nat) (t : Nat) :
    ∀ l : List ArpEntry, (l.any fun e => e.valid && e.ip == ip) = true →
      arpLookup (arpUpdateFirst ip mac t l) ip = some mac := by
  intro l
  induction l with
  | nil => simp
  | cons e rest ih =>
    intro hany
    simp only [arpUpdateFirst]
    split_ifs with h1
    · simp [arpLookup, List.find?_cons, h1.1, h1.2]
    · have he : (e.valid && e.ip == ip) = false := by
        cases hv : e.valid
        · simp
        · have hip : e.ip ≠ ip := fun hip => h1 ⟨hv, hip⟩
          simp [hip]
      have hrest : (rest.any fun x => x.valid && x.ip == ip) = true := by
        simpa [List.any_cons, he] using hany
      simpa [arpLookup, List.find?_cons, he] using ih hrest

/-- Writing a fresh valid entry for `ip` into any in-range slot of a cache
holding no valid entry for `ip` makes `arp_lookup ip` return its MAC. -/
theorem arpLookup_set (ip : Nat) (mac : List Nat) (t : Nat) :
    ∀ (l : List ArpEntry) (k : Nat),
      (l.any fun e => e.valid && e.ip == ip) = false → k < l.length →
      arpLookup (l.set k { ip := ip, mac := mac, timestamp := t, valid := true }) ip =
        some mac := by
  intro l
  induction l with
  | nil => intro k _ hk; simp at hk
  | cons e rest ih =>
    intro k hany hk
    simp only [List.any_cons, Bool.or_eq_false_iff] at hany
    obtain ⟨he, hrest⟩ := hany
    rcases k with _ | k
    · simp [List.set, arpLookup, List.find?_cons]
    · simp only [List.set, arpLookup, List.find?_cons, he]
      have := ih k hrest (by simpa using hk)
      simpa [arpLookup] using this

/-- `arp_add` always leaves a cache in which `arp_lookup ip` finds the
just-recorded MAC (any non-empty cache; the kernel's has 16 slots). -/
theorem arpLookup_after_add (l : List ArpEntry) (ip : Nat) (mac : List Nat) (t : Nat)
    (hne : l ≠ []) : arpLookup (arpAdd l ip mac t) ip = some mac := by
  unfold arpAdd
  split_ifs with h1
  · exact arpLookup_updateFirst ip mac t l h1
  · have hlen : 0 < l.length := List.length_pos.mpr hne
    have hk : arpFindSlot l < l.length := by
      have := arpFindSlotGo_lt l 0 0 0xFFFFFFFF (by omega)
      simpa [arpFindSlot] using this
    exact arpLookup_set ip mac t l (arpFindSlot l) (Bool.not_eq_true _ ▸ by simpa using h1) hk

/-- Claim C9: for every ARP cache state (in particular a full 16-entry
cache) and every incoming ARP packet of length ≥ 28 — request or reply —
`arp_handle` records the sender's `(ip, mac)` so that `arp_lookup`
immediately afterwards succeeds and returns that MAC. -/
theorem C9_arp_cache_consistency (cache : List ArpEntry) (pkt : List Nat) (t ourIp : Nat)
    (hne : cache ≠ []) (hlen : 28 ≤ pkt.length) :
    arpLookup (arpHandle cache pkt t ourIp).1 (arpSenderIp pkt) =
      some (arpSenderMac pkt) := by
  unfold arpHandle
  rw [if_neg (by omega)]
  exact arpLookup_after_add cache (arpSenderIp pkt) (arpSenderMac pkt) t hne

/-- Claim C9, witness: a full 16-entry (all-invalid) cache and the
concrete request `exArpPkt`; the lookup returns `aa:bb:cc:dd:ee:ff`. -/
theorem C9_witness :
    (List.replicate 16 emptyArpEntry ≠ ([] : List ArpEntry)) ∧
    28 ≤ exArpPkt.length ∧
    arpLookup (arpHandle (List.replicate 16 emptyArpEntry) exArpPkt 7 0x0A000001).1
        (arpSenderIp exArpPkt) = some (arpSenderMac exArpPkt) :=
  ⟨by decide, by decide,
    C9_arp_cache_consistency (List.replicate 16 emptyArpEntry) exArpPkt 7 0x0A000001
      (by decide) (by decide)⟩

/-! ## Claim C2 — recursive rm

The claim asserts that `cmd_rm -r`/`-rf` on a directory frees **every**
descendant at any depth.  The code's sweep frees only the nodes whose
`parent` field is the removed index — the direct children — so
grandchildren survive with a dangling parent. -/

/-- Claim C2, counterexample.  In the filesystem `/a/b/c`, running
`cmd_rm` with arguments `-rf a` frees `/a` (node 1) and its direct child
`/a/b` (node 2), but the grandchild `/a/b/c` (node 3, whose parent chain
3 → 2 → 1 leads to the removed directory) keeps type FILE; the claim
requires it to be FREE. -/
theorem C2_counterexample :
    ((cmdRm exFs ['-', 'r', 'f', ' ', 'a']).nodes 1).type = .free ∧
    ((cmdRm exFs ['-', 'r', 'f', ' ', 'a']).nodes 2).type = .free ∧
    (exFs.nodes 2).parent = 1 ∧ (exFs.nodes 3).parent = 2 ∧
    ((cmdRm exFs ['-', 'r', 'f', ' ', 'a']).nodes 3).type = .file := by
  decide

/-- The sweep frees the target and exactly the nodes whose `parent` is
the target index; every other node is untouched. -/
theorem rmSweep_spec (s : FsState) (idx : Nat) (hdir : (getNode s idx).type = .dir) :
    (∀ j : Fin 128, ((j : Nat) = idx ∨ (s.nodes j).parent = (idx : Int)) →
      ((rmSweep s idx).nodes j).type = .free) ∧
    (∀ j : Fin 128, (j : Nat) ≠ idx → (s.nodes j).parent ≠ (idx : Int) →
      (rmSweep s idx).nodes j = s.nodes j) := by
  unfold rmSweep
  rw [if_pos hdir]
  constructor
  · intro j hj
    by_cases h1 : (j : Nat) = idx <;> by_cases h2 : (s.nodes j).parent = (idx : Int) <;>
      simp [h1, h2] <;> tauto
  · intro j h1 h2
    simp [h1, h2]

/-- Claim C2, amended: `cmd_rm` with a recursive flag on a path resolving
to a non-root directory `D` frees `D` and exactly the nodes whose
`parent` field is `D`'s index (its direct children); every node that is
neither `D` nor a direct child of `D` — deeper descendants included — is
left completely unchanged. -/
theorem C2_rm_one_level (s : FsState) (args : List Char) (idx : Nat)
    (hargs : args ≠ [])
    (hrec : (rmParse args).1 = true)
    (hres : resolvePath s (rmParse args).2 = some idx)
    (hidx : idx ≠ 0)
    (hdir : (getNode s idx).type = .dir) :
    (∀ j : Fin 128, ((j : Nat) = idx ∨ (s.nodes j).parent = (idx : Int)) →
      ((cmdRm s args).nodes j).type = .free) ∧
    (∀ j : Fin 128, (j : Nat) ≠ idx → (s.nodes j).parent ≠ (idx : Int) →
      (cmdRm s args).nodes j = s.nodes j) := by
  have hcmd : cmdRm s args = rmSweep s idx := by
    unfold cmdRm
    rw [if_neg hargs]
    simp only [hres]
    rw [if_neg hidx, if_neg (by simp [hrec])]
  rw [hcmd]
  exact rmSweep_spec s idx hdir

/-- Claim C2 (amended), witness: the `/a/b/c` filesystem and `-rf a`;
node 1 resolves from the path, and node 1 with its direct child node 2
are freed. -/
theorem C2_witness :
    (rmParse ['-', 'r', 'f', ' ', 'a']).1 = true ∧
    resolvePath exFs (rmParse ['-', 'r', 'f', ' ', 'a']).2 = some 1 ∧
    (∀ j : Fin 128, ((j : Nat) = 1 ∨ (exFs.nodes j).parent = (1 : Int)) →
      ((cmdRm exFs ['-', 'r', 'f', ' ', 'a']).nodes j).type = .free) :=
  ⟨by decide, by decide,
    (C2_rm_one_level exFs ['-', 'r', 'f', ' ', 'a'] 1 (by decide) (by decide) (by decide)
      (by decide) (by decide)).1⟩

/-! ## Claim C4 — paging map/translate/unmap

The claim asserts `page_get_phys(virt) = phys` after any successful
`page_map(virt, phys, flags)`.  The code stores `phys & 0xFFFFF000` in
the PTE and returns `(pte & 0xFFFFF000) | (virt & 0xFFF)`, so the claim
holds only when `phys` and `virt` agree modulo 4096 (in particular for
page-aligned pairs) and fails otherwise. -/

theorem tb_fff (j : Nat) : Nat.testBit 0xFFF j = decide (j < 12) := by
  rw [show (0xFFF : Nat) = 2 ^ 12 - 1 from rfl, Nat.testBit_two_pow_sub_one]

theorem tb_maskHi (j : Nat) :
    Nat.testBit 0xFFFFF000 j = (decide (12 ≤ j) && decide (j < 32)) := by
  rw [show (0xFFFFF000 : Nat) = (2 ^ 20 - 1) <<< 12 from rfl, Nat.testBit_shiftLeft,
    Nat.testBit_two_pow_sub_one]
  by_cases h : 12 ≤ j
  · simp [h, ge_iff_le, show (j - 12 < 20) ↔ (j < 32) from by omega]
  · simp [h, ge_iff_le]

/-- A PTE written by `page_map` has the PRESENT bit. -/
theorem pte_present (phys flags : Nat) :
    ((phys &&& 0xFFFFF000) ||| (flags &&& 0xFFF) ||| 1) &&& 1 = 1 := by
  apply Nat.eq_of_testBit_eq
  intro j
  rw [Nat.testBit_and]
  rcases j with _ | j
  · simp [Nat.testBit_or]
  · rw [show (1 : Nat) = 2 ^ 0 from rfl, Nat.testBit_two_pow]
    simp

/-- Reading back a PTE written by `page_map` reproduces `phys` exactly
when `phys` and `virt` agree modulo the page size. -/
theorem pte_roundtrip (phys flags virt : Nat) (hp : phys < 2 ^ 32)
    (hc : phys % 4096 = virt % 4096) :
    (((phys &&& 0xFFFFF000) ||| (flags &&& 0xFFF) ||| 1) &&& 0xFFFFF000) |||
      (virt &&& 0xFFF) = phys := by
  apply Nat.eq_of_testBit_eq
  intro j
  simp only [Nat.testBit_or, Nat.testBit_and, tb_maskHi, tb_fff]
  rw [show (1 : Nat) = 2 ^ 0 from rfl, Nat.testBit_two_pow]
  by_cases h12 : j < 12
  · have hm : ¬(12 ≤ j) := by omega
    have hcb := congrArg (fun x => Nat.testBit x j) hc
    simp only [show (4096 : Nat) = 2 ^ 12 from rfl, Nat.testBit_mod_two_pow] at hcb
    rw [decide_eq_true h12] at hcb
    simp only [Bool.true_and] at hcb
    simp [hm, h12, hcb]
  · by_cases h32 : j < 32
    · have hm : 12 ≤ j := by omega
      simp [hm, h12, h32, show ¬(0 = j) from by omega]
    · have hz : phys.testBit j = false :=
        Nat.testBit_lt_two_pow
          (lt_of_lt_of_le hp (pow_le_pow_right (by omega) (by omega)))
      simp [h12, h32, hz, show ¬(0 = j) from by omega]

theorem pd_eq (virt : Nat) : virt >>> 22 = (virt >>> 12) / 1024 := by
  rw [show 22 = 12 + 10 from rfl, Nat.shiftRight_add, Nat.shiftRight_eq_div_pow]

theorem pt_eq (virt : Nat) : (virt >>> 12) &&& 0x3FF = (virt >>> 12) % 1024 := by
  apply Nat.eq_of_testBit_eq
  intro j
  rw [Nat.testBit_and, show (0x3FF : Nat) = 2 ^ 10 - 1 from rfl,
    Nat.testBit_two_pow_sub_one, show (1024 : Nat) = 2 ^ 10 from rfl,
    Nat.testBit_mod_two_pow]
  exact Bool.and_comm _ _

/-- Distinct virtual page numbers mean a different directory slot or a
different PTE slot inside the same table. -/
theorem vpn_split (v w : Nat) (h : v >>> 12 ≠ w >>> 12) :
    v >>> 22 ≠ w >>> 22 ∨
      (v >>> 22 = w >>> 22 ∧ (v >>> 12) &&& 0x3FF ≠ (w >>> 12) &&& 0x3FF) := by
  by_cases hpd : v >>> 22 = w >>> 22
  · right
    refine ⟨hpd, fun he => h ?_⟩
    have h1 := pd_eq v
    have h2 := pd_eq w
    have h3 := pt_eq v
    have h4 := pt_eq w
    omega
  · left
    exact hpd

/-- `page_alloc` changes only the bitmap and the free counter. -/
theorem pageAlloc_dir (s : PagingState) : (pageAlloc s).1.dir = s.dir := by
  unfold pageAlloc
  by_cases h : findFreePage s = 0xFFFFFFFF <;> simp [h]

/-- `page_get_phys virt` reads only the PTE slot of `virt`. -/
theorem getPhys_congr (s1 s2 : PagingState) (virt : Nat)
    (h : (s1.dir (virt >>> 22)).map (fun t => t ((virt >>> 12) &&& 0x3FF)) =
         (s2.dir (virt >>> 22)).map (fun t => t ((virt >>> 12) &&& 0x3FF))) :
    pageGetPhys s1 virt = pageGetPhys s2 virt := by
  unfold pageGetPhys
  cases h1 : s1.dir (virt >>> 22) with
  | none =>
    cases h2 : s2.dir (virt >>> 22) with
    | none => simp only [h1, h2]
    | some t2 => rw [h1, h2] at h; simp at h
  | some t1 =>
    cases h2 : s2.dir (virt >>> 22) with
    | none => rw [h1, h2] at h; simp at h
    | some t2 =>
      rw [h1, h2] at h
      simp only [Option.map_some', Option.some.injEq] at h
      simp only [h1, h2, h]

/-- What `page_map` does to the directory: either it fails (no table and
`page_alloc` returned 0) and the directory is untouched, or it succeeds
and only the PTE slot of `v` inside `v`'s table is overwritten (the
table itself being the existing one, or a fresh zeroed one). -/
theorem pageMap_dir_spec (s : PagingState) (v p f : Nat) :
    ((pageMap s v p f).2 = false ∧ (pageMap s v p f).1.dir = s.dir) ∨
    ((pageMap s v p f).2 = true ∧ (pageMap s v p f).1.dir = fun d =>
      if d = v >>> 22 then
        some (fun j => if j = (v >>> 12) &&& 0x3FF
          then (p &&& 0xFFFFF000) ||| (f &&& 0xFFF) ||| 1
          else ((s.dir (v >>> 22)).getD (fun _ => 0)) j)
      else s.dir d) := by
  unfold pageMap
  cases hdd : s.dir (v >>> 22) with
  | some t2 =>
    simp only [hdd]
    right
    refine ⟨by trivial, funext fun d => ?_⟩
    by_cases hdv : d = v >>> 22 <;> simp [setPte, hdv, hdd]
  | none =>
    simp only [hdd]
    generalize hal : pageAlloc s = al
    obtain ⟨s1, r⟩ := al
    have hs1 : s1.dir = s.dir := by
      have h0 := pageAlloc_dir s
      rw [hal] at h0
      exact h0
    by_cases hz : r = 0
    · left
      rw [if_pos hz]
      exact ⟨rfl, hs1⟩
    · right
      rw [if_neg hz]
      refine ⟨rfl, funext fun d => ?_⟩
      by_cases hdv : d = v >>> 22 <;> simp [setPte, hdv, hdd, congrFun hs1]

/-- A `page_map` on a different virtual page leaves `page_get_phys virt`
unchanged (an absent directory entry for `virt`'s slot stays absent, or
`virt`'s PTE slot is installed zeroed, which still translates to 0). -/
theorem pageMap_getPhys_other (s : PagingState) (v p f virt : Nat)
    (hvpn : v >>> 12 ≠ virt >>> 12) :
    pageGetPhys (pageMap s v p f).1 virt = pageGetPhys s virt := by
  rcases pageMap_dir_spec s v p f with ⟨_, h⟩ | ⟨_, h⟩
  · exact getPhys_congr _ _ _ (by rw [h])
  · rcases vpn_split v virt hvpn with hpd | ⟨hpd, hpt⟩
    · refine getPhys_congr _ _ _ ?_
      rw [h]
      simp [Ne.symm hpd]
    · cases hdd : s.dir (v >>> 22) with
      | some t2 =>
        refine getPhys_congr _ _ _ ?_
        rw [h, ← hpd, hdd]
        simp [Ne.symm hpt]
      | none =>
        unfold pageGetPhys
        simp [h, ← hpd, hdd, Ne.symm hpt]

/-- A `page_unmap` on a different virtual page leaves
`page_get_phys virt` unchanged. -/
theorem pageUnmap_getPhys_other (s : PagingState) (v virt : Nat)
    (hvpn : v >>> 12 ≠ virt >>> 12) :
    pageGetPhys (pageUnmap s v) virt = pageGetPhys s virt := by
  unfold pageUnmap
  cases hdd : s.dir (v >>> 22) with
  | none => simp only [hdd]
  | some t2 =>
    simp only [hdd]
    refine getPhys_congr _ _ _ ?_
    rcases vpn_split v virt hvpn with hpd | ⟨hpd, hpt⟩
    · simp [setPte, Ne.symm hpd]
    · simp [setPte, ← hpd, hdd, Ne.symm hpt]

/-- A `page_map`/`page_unmap` on a different virtual page leaves
`page_get_phys virt` unchanged, for every state. -/
theorem pageStep_preserves_getPhys (s : PagingState) (op : PageOp) (virt : Nat)
    (hop : op.vpn ≠ virt >>> 12) :
    pageGetPhys (pageStep s op) virt = pageGetPhys s virt := by
  cases op with
  | map v p f => exact pageMap_getPhys_other s v p f virt hop
  | unmap v => exact pageUnmap_getPhys_other s v virt hop

theorem pageRun_preserves_getPhys (ops : List PageOp) :
    ∀ (s : PagingState) (virt : Nat), (∀ op ∈ ops, PageOp.vpn op ≠ virt >>> 12) →
      pageGetPhys (pageRun s ops) virt = pageGetPhys s virt := by
  induction ops with
  | nil => intro s virt _; rfl
  | cons op rest ih =>
    intro s virt hops
    have h1 := pageStep_preserves_getPhys s op virt (hops op (by simp))
    have h2 := ih (pageStep s op) virt (fun o ho => hops o (by simp [ho]))
    simpa [pageRun] using h2.trans h1

/-- After a successful `page_map`, the PTE for `virt` holds the value the
code wrote. -/
theorem pageMap_writes_pte (s : PagingState) (virt phys flags : Nat)
    (hsucc : (pageMap s virt phys flags).2 = true) :
    ∃ tbl, (pageMap s virt phys flags).1.dir (virt >>> 22) = some tbl ∧
      tbl ((virt >>> 12) &&& 0x3FF) =
        (phys &&& 0xFFFFF000) ||| (flags &&& 0xFFF) ||| 1 := by
  rcases pageMap_dir_spec s virt phys flags with ⟨hf, _⟩ | ⟨_, h⟩
  · rw [hsucc] at hf
    exact absurd hf (by simp)
  · exact ⟨_, by rw [congrFun h (virt >>> 22), if_pos rfl], by simp⟩

/-- `page_unmap(virt)` always makes `page_get_phys(virt)` return 0. -/
theorem getPhys_after_unmap (t : PagingState) (virt : Nat) :
    pageGetPhys (pageUnmap t virt) virt = 0 := by
  unfold pageUnmap pageGetPhys
  cases hd : t.dir (virt >>> 22) with
  | none => simp [hd]
  | some tbl => simp [hd, setPte]

/-- Claim C4, counterexample.  Mapping `virt = 0` to `phys = 1` succeeds
(the identity table for the first 4 MB is present), yet `page_get_phys 0`
returns 0, not 1: the low 12 bits of `phys` are masked away and replaced
by the offset bits of `virt`. -/
theorem C4_counterexample :
    (pageMap pagingInit 0 1 2).2 = true ∧
    pageGetPhys (pageMap pagingInit 0 1 2).1 0 = 0 ∧ (0 : Nat) ≠ 1 := by
  decide

/-- Claim C4, amended: for every pair with `phys ≡ virt (mod 4096)` (in
particular all page-aligned pairs), after a successful
`page_map(virt, phys, flags)` the translation `page_get_phys(virt)`
equals `phys`, it stays `phys` across any sequence of `page_map`/
`page_unmap` calls on other virtual pages, and after `page_unmap(virt)`
it returns 0. -/
theorem C4_map_translate_unmap (s : PagingState) (virt phys flags : Nat)
    (ops : List PageOp) (hp : phys < 2 ^ 32) (hc : phys % 4096 = virt % 4096)
    (hsucc : (pageMap s virt phys flags).2 = true)
    (hops : ∀ op ∈ ops, PageOp.vpn op ≠ virt >>> 12) :
    pageGetPhys (pageRun (pageMap s virt phys flags).1 ops) virt = phys ∧
    pageGetPhys
      (pageUnmap (pageRun (pageMap s virt phys flags).1 ops) virt) virt = 0 := by
  constructor
  · rw [pageRun_preserves_getPhys ops _ virt hops]
    obtain ⟨tbl, hdir, hpte⟩ := pageMap_writes_pte s virt phys flags hsucc
    unfold pageGetPhys
    simp only [hdir, hpte]
    rw [if_neg (by rw [pte_present]; omega)]
    exact pte_roundtrip phys flags virt hp hc
  · exact getPhys_after_unmap _ virt

/-- Claim C4 (amended), witness: map page 1 (`virt = phys = 4096`), run
an interleaved map of a different page, read back 4096, then unmap and
read back 0. -/
theorem C4_witness :
    (4096 : Nat) < 2 ^ 32 ∧ (4096 : Nat) % 4096 = 4096 % 4096 ∧
    (pageMap pagingInit 4096 4096 2).2 = true ∧
    pageGetPhys (pageRun (pageMap pagingInit 4096 4096 2).1
      [.map 8192 12288 3]) 4096 = 4096 ∧
    pageGetPhys (pageUnmap (pageRun (pageMap pagingInit 4096 4096 2).1
      [.map 8192 12288 3]) 4096) 4096 = 0 := by
  have h := C4_map_translate_unmap pagingInit 4096 4096 2 [.map 8192 12288 3]
    (by norm_num) rfl (by decide) (by decide)
  exact ⟨by norm_num, rfl, by decide, h.1, h.2⟩

/-! ## Claim C5 — heap conservation -/

/-- On success, `kmalloc`'s scan increases the busy total by exactly the
size it charges to the counters; on failure it leaves the list alone. -/
theorem kmallocGo_busySum (n : Nat) :
    ∀ (addr : Nat) (bs : List MBlock),
      (∀ pr, (kmallocGo addr n bs).2 = some pr →
        busySum (kmallocGo addr n bs).1 = busySum bs + pr.2) ∧
      ((kmallocGo addr n bs).2 = none → (kmallocGo addr n bs).1 = bs) := by
  intro addr bs
  induction bs generalizing addr with
  | nil => exact ⟨fun pr h => by simp [kmallocGo] at h, fun _ => rfl⟩
  | cons b rest ih =>
    constructor
    · intro pr h
      unfold kmallocGo at h ⊢
      split_ifs at h ⊢ with h1 h2
      · simp only [Option.some.injEq] at h
        subst h
        have hb : b.free = true := h1.1
        simp [busySum, hb, Nat.add_comm]
      · simp only [Option.some.injEq] at h
        subst h
        have hb : b.free = true := h1.1
        simp [busySum, hb, Nat.add_comm]
      · have := (ih (addr + HDR_SIZE + b.size)).1 pr (by simpa using h)
        cases hbf : b.free <;> simp [busySum, hbf] at this ⊢ <;> omega
    · intro h
      unfold kmallocGo at h ⊢
      split_ifs at h ⊢ with h1 h2
      all_goals first
        | (have h3 := (ih (addr + HDR_SIZE + b.size)).2 (by simpa using h)
           show b :: (kmallocGo (addr + HDR_SIZE + b.size) n rest).1 = b :: rest
           rw [h3])
        | simp at h

/-- Freeing the busy block whose payload is at `a` removes exactly its
size from the busy total. -/
theorem kfreeGo_busySum (a : Nat) :
    ∀ (addr : Nat) (bs : List MBlock), isBusyPtr addr a bs = true →
      ∃ sz, (kfreeGo addr a bs).2 = some sz ∧
        busySum bs = busySum (kfreeGo addr a bs).1 + sz := by
  intro addr bs
  induction bs generalizing addr with
  | nil => intro h; simp [isBusyPtr] at h
  | cons b rest ih =>
    intro h
    unfold isBusyPtr at h
    unfold kfreeGo
    split_ifs at h ⊢ with h1
    · have hb : b.free = false := by simpa using h
      exact ⟨b.size, by simp, by simp [busySum, hb, Nat.add_comm]⟩
    · obtain ⟨sz, h2, h3⟩ := ih (addr + HDR_SIZE + b.size) h
      refine ⟨sz, by simpa using h2, ?_⟩
      cases hbf : b.free <;> simp [busySum, hbf] at h3 ⊢ <;> omega

/-- One valid step preserves `total_allocated = Σ busy sizes`. -/
theorem heapStep_allocated (s : HeapState) (op : HeapOp)
    (hfree : ∀ a, op = .free a → isBusyPtr HEAP_START a s.blocks = true)
    (hinv : s.allocated = busySum s.blocks) :
    (heapStep s op).allocated = busySum (heapStep s op).blocks := by
  cases op with
  | malloc n =>
    show (kmalloc s n).1.allocated = busySum (kmalloc s n).1.blocks
    unfold kmalloc
    cases hgo : (kmallocGo HEAP_START n s.blocks).2 with
    | none =>
      have := (kmallocGo_busySum n HEAP_START s.blocks).2 hgo
      cases hpair : kmallocGo HEAP_START n s.blocks with
      | mk bs r =>
        rw [hpair] at hgo this
        subst hgo
        simp_all
    | some pr =>
      have := (kmallocGo_busySum n HEAP_START s.blocks).1 pr hgo
      cases hpair : kmallocGo HEAP_START n s.blocks with
      | mk bs r =>
        rw [hpair] at hgo this
        subst hgo
        obtain ⟨payload, sz⟩ := pr
        simp_all
  | free a =>
    show (kfree s a).allocated = busySum (kfree s a).blocks
    have hbusy := hfree a rfl
    unfold kfree
    by_cases ha : a = 0
    · rw [if_pos ha]
      exact hinv
    · rw [if_neg ha]
      obtain ⟨sz, h2, h3⟩ := kfreeGo_busySum a HEAP_START s.blocks hbusy
      cases hpair : kfreeGo HEAP_START a s.blocks with
      | mk bs r =>
        rw [hpair] at h2 h3
        subst h2
        simp_all

/-- The invariant holds along every valid trace. -/
theorem validRun_allocated :
    ∀ (ops : List HeapOp) (s : HeapState), ValidHeapOps s ops →
      s.allocated = busySum s.blocks →
      (heapRun s ops).allocated = busySum (heapRun s ops).blocks := by
  intro ops
  induction ops with
  | nil => intro s _ hinv; exact hinv
  | cons op rest ih =>
    intro s hvalid hinv
    cases hvalid with
    | malloc _ n _ hrest =>
      exact ih _ hrest (heapStep_allocated s (.malloc n) (by intro a h; cases h) hinv)
    | free _ a _ hbusy hrest =>
      exact ih _ hrest
        (heapStep_allocated s (.free a) (by intro a2 h; cases h; exact hbusy) hinv)

theorem busySum_allFree (bs : List MBlock) (h : ∀ b ∈ bs, b.free = true) :
    busySum bs = 0 := by
  induction bs with
  | nil => rfl
  | cons b rest ih =>
    have hb := h b (by simp)
    simp only [busySum, List.filter_cons, hb]
    exact ih fun x hx => h x (by simp [hx])

/-- Claim C5: starting from the initialized heap, any sequence of
`kmalloc`/`kfree` in which every `kfree` targets a live allocation and in
which, at the end, every allocation has been freed (no busy block
remains), brings the `allocated` counter reported by `mm_stats` back to
zero.  (The busy blocks of a reachable heap are exactly the payloads
`kmalloc` has returned and `kfree` has not yet reclaimed, so the
hypotheses say precisely that every non-null `kmalloc` result is freed
exactly once.) -/
theorem C5_heap_conservation (ops : List HeapOp)
    (hvalid : ValidHeapOps mmInit ops)
    (hall : ∀ b ∈ (heapRun mmInit ops).blocks, b.free = true) :
    (heapRun mmInit ops).allocated = 0 := by
  have h := validRun_allocated ops mmInit hvalid (by rfl)
  rw [h]
  exact busySum_allFree _ hall

/-- Claim C5, witness: allocate 100 bytes (payload `0x100000 + 12`), free
it; the counter is back to zero. -/
theorem C5_witness :
    ValidHeapOps mmInit [.malloc 100, .free 1048588] ∧
    (∀ b ∈ (heapRun mmInit [.malloc 100, .free 1048588]).blocks, b.free = true) ∧
    (heapRun mmInit [.malloc 100, .free 1048588]).allocated = 0 :=
  have hv : ValidHeapOps mmInit [.malloc 100, .free 1048588] :=
    ValidHeapOps.malloc _ 100 _
      (ValidHeapOps.free _ 1048588 _ (by decide) (ValidHeapOps.nil _))
  ⟨hv, by decide, C5_heap_conservation [.malloc 100, .free 1048588] hv (by decide)⟩

/-! ## Claim C6 — TCP three-way handshake

The claim asserts the emitted SYN+ACK carries sequence number
`initial_A + 1`.  In the code the segment is built (from `s->seq_num`)
*before* `s->seq_num++` runs, so the frame carries `initial_A` and only
the socket's stored sequence number becomes `initial_A + 1`. -/

theorem findIdxQ_lt {α : Type} (l : List α) (p : α → Bool) :
    ∀ (i j : Nat), List.findIdx? p l j = some i → i - j < l.length := by
  induction l with
  | nil => intro i j h; simp [List.findIdx?] at h
  | cons a as ih =>
    intro i j h
    rw [List.findIdx?_cons] at h
    split_ifs at h with hp
    · simp at h
      simp
      omega
    · have := ih i (j + 1) h
      simp
      omega

theorem getD_set_self {α : Type} (l : List α) (i : Nat) (x d : α) (h : i < l.length) :
    (l.set i x).getD i d = x := by
  rw [List.getD_eq_getElem?_getD, List.getElem?_set_eq h]
  rfl

/-- `tcp_handle` on a ≥20-byte segment with a matched socket stores the
state machine's updated socket back into the table... -/
theorem tcpHandle_step_fst (socks : List TcpSocket) (pkt : List Nat) (srcIp : Nat) (i : Nat)
    (hlen : 20 ≤ pkt.length)
    (hfind : tcpFindSock socks (tcpDstPort pkt) srcIp (tcpSrcPort pkt) = some i) :
    (tcpHandle socks pkt srcIp).1 =
      socks.set i (tcpMachine (socks.getD i defaultTcpSocket) pkt.length srcIp
        (tcpSrcPort pkt) (tcpSeq pkt) (tcpFlags pkt) (tcpDataOffset pkt) pkt).1 := by
  unfold tcpHandle
  rw [if_neg (by omega), hfind]

/-- ... and emits exactly the segments the state machine produced. -/
theorem tcpHandle_step_snd (socks : List TcpSocket) (pkt : List Nat) (srcIp : Nat) (i : Nat)
    (hlen : 20 ≤ pkt.length)
    (hfind : tcpFindSock socks (tcpDstPort pkt) srcIp (tcpSrcPort pkt) = some i) :
    (tcpHandle socks pkt srcIp).2 =
      (tcpMachine (socks.getD i defaultTcpSocket) pkt.length srcIp
        (tcpSrcPort pkt) (tcpSeq pkt) (tcpFlags pkt) (tcpDataOffset pkt) pkt).2 := by
  unfold tcpHandle
  rw [if_neg (by omega), hfind]

/-- The LISTEN × SYN transition: record the peer, set
`ack = seq_in + 1`, emit SYN+ACK carrying the *old* `seq_num`, then
increment `seq_num`, entering SYN_RCVD. -/
theorem tcpMachine_listen_syn (s : TcpSocket)
    (pktLen srcIp srcPort seq flags dataOffset : Nat) (pktData : List Nat)
    (hst : s.state = .listen) (hsyn : flags &&& TCP_SYN ≠ 0) :
    tcpMachine s pktLen srcIp srcPort seq flags dataOffset pktData =
      ({ s with remoteIp := srcIp, remotePort := srcPort,
                ackNum := (seq + 1) % 2 ^ 32, state := .synRcvd,
                seqNum := (s.seqNum + 1) % 2 ^ 32 },
        [{ srcPort := s.localPort, dstPort := srcPort, seq := s.seqNum,
           ack := (seq + 1) % 2 ^ 32, flags := TCP_SYN ||| TCP_ACK,
           window := s.recvWindow, payload := [] }]) := by
  unfold tcpMachine
  simp only [hst]
  rw [if_pos hsyn]
  rfl

/-- The SYN_RCVD × ACK transition: become ESTABLISHED, emit nothing. -/
theorem tcpMachine_synRcvd_ack (s : TcpSocket)
    (pktLen srcIp srcPort seq flags dataOffset : Nat) (pktData : List Nat)
    (hst : s.state = .synRcvd) (hack : flags &&& TCP_ACK ≠ 0) :
    tcpMachine s pktLen srcIp srcPort seq flags dataOffset pktData =
      ({ s with state := .established }, []) := by
  unfold tcpMachine
  simp only [hst]
  rw [if_pos hack]

/-- Processing an ACK for a SYN_RCVD socket makes it ESTABLISHED. -/
theorem tcpHandle_establishes (socks2 : List TcpSocket) (pkt2 : List Nat)
    (srcIp i : Nat) (hlen2 : 20 ≤ pkt2.length)
    (hfind2 : tcpFindSock socks2 (tcpDstPort pkt2) srcIp (tcpSrcPort pkt2) = some i)
    (hst : (socks2.getD i defaultTcpSocket).state = .synRcvd)
    (hack : tcpFlags pkt2 &&& TCP_ACK ≠ 0) :
    ((tcpHandle socks2 pkt2 srcIp).1.getD i defaultTcpSocket).state = .established := by
  have hi : i < socks2.length := by
    have := findIdxQ_lt socks2 _ i 0 hfind2
    omega
  rw [tcpHandle_step_fst socks2 pkt2 srcIp i hlen2 hfind2,
    tcpMachine_synRcvd_ack (socks2.getD i defaultTcpSocket) pkt2.length srcIp
      (tcpSrcPort pkt2) (tcpSeq pkt2) (tcpFlags pkt2) (tcpDataOffset pkt2) pkt2 hst hack,
    getD_set_self socks2 i _ defaultTcpSocket hi]

/-- Claim C6, counterexample.  A socket listening on port 9000 with
`seq_num = 1000` receives a SYN with sequence 2000: the emitted SYN+ACK
carries sequence-number field 1000 (= initial_A), not 1001 as the claim
states (its acknowledgment field is 2001 = initial_B + 1 as claimed). -/
theorem C6_counterexample :
    exListenSock.seqNum = 1000 ∧
    ((tcpHandle [exListenSock] exSynPkt 0x0A000002).2.map fun o => o.seq) = [1000] ∧
    ((tcpHandle [exListenSock] exSynPkt 0x0A000002).2.map fun o => o.seq) ≠ [1001] := by
  decide

/-- Claim C6, amended: a LISTEN socket with initial sequence number
`initial_A` processing a SYN with peer sequence `initial_B` emits exactly
one SYN+ACK whose sequence field is `initial_A` and whose acknowledgment
field is `initial_B + 1`; the socket enters SYN_RCVD with its stored
`seq_num` advanced to `initial_A + 1` (all mod `2^32`); processing the
peer's ACK then makes it ESTABLISHED. -/
theorem C6_tcp_handshake (socks : List TcpSocket) (pkt pkt2 : List Nat)
    (srcIp : Nat) (i : Nat)
    (hlen : 20 ≤ pkt.length)
    (hfind : tcpFindSock socks (tcpDstPort pkt) srcIp (tcpSrcPort pkt) = some i)
    (hstate : (socks.getD i defaultTcpSocket).state = .listen)
    (hsyn : tcpFlags pkt &&& TCP_SYN ≠ 0)
    (hlen2 : 20 ≤ pkt2.length)
    (hfind2 : tcpFindSock (tcpHandle socks pkt srcIp).1 (tcpDstPort pkt2) srcIp
        (tcpSrcPort pkt2) = some i)
    (hack : tcpFlags pkt2 &&& TCP_ACK ≠ 0) :
    (tcpHandle socks pkt srcIp).2 =
      [{ srcPort := (socks.getD i defaultTcpSocket).localPort,
         dstPort := tcpSrcPort pkt,
         seq := (socks.getD i defaultTcpSocket).seqNum,
         ack := (tcpSeq pkt + 1) % 2 ^ 32,
         flags := TCP_SYN ||| TCP_ACK,
         window := (socks.getD i defaultTcpSocket).recvWindow,
         payload := [] }] ∧
    ((tcpHandle socks pkt srcIp).1.getD i defaultTcpSocket).state = .synRcvd ∧
    ((tcpHandle socks pkt srcIp).1.getD i defaultTcpSocket).seqNum =
      ((socks.getD i defaultTcpSocket).seqNum + 1) % 2 ^ 32 ∧
    ((tcpHandle (tcpHandle socks pkt srcIp).1 pkt2 srcIp).1.getD i
        defaultTcpSocket).state = .established := by
  have hi : i < socks.length := by
    have := findIdxQ_lt socks _ i 0 hfind
    omega
  have hm1 := tcpMachine_listen_syn (socks.getD i defaultTcpSocket) pkt.length srcIp
    (tcpSrcPort pkt) (tcpSeq pkt) (tcpFlags pkt) (tcpDataOffset pkt) pkt hstate hsyn
  have hsnd := tcpHandle_step_snd socks pkt srcIp i hlen hfind
  have hfst := tcpHandle_step_fst socks pkt srcIp i hlen hfind
  have hsock2 : (tcpHandle socks pkt srcIp).1.getD i defaultTcpSocket =
      { socks.getD i defaultTcpSocket with
        remoteIp := srcIp, remotePort := tcpSrcPort pkt,
        ackNum := (tcpSeq pkt + 1) % 2 ^ 32, state := .synRcvd,
        seqNum := ((socks.getD i defaultTcpSocket).seqNum + 1) % 2 ^ 32 } := by
    rw [hfst, hm1, getD_set_self socks i _ defaultTcpSocket hi]
  refine ⟨?_, ?_, ?_, ?_⟩
  · rw [hsnd, hm1]
  · rw [hsock2]
  · rw [hsock2]
  · exact tcpHandle_establishes (tcpHandle socks pkt srcIp).1 pkt2 srcIp i hlen2 hfind2
      (by rw [hsock2]) hack

/-- Claim C6 (amended), witness: the concrete listener/SYN/ACK from the
counterexample section; the handshake ends ESTABLISHED with the
witnessed header fields. -/
theorem C6_witness :
    tcpFindSock [exListenSock] (tcpDstPort exSynPkt) 0x0A000002 (tcpSrcPort exSynPkt) =
      some 0 ∧
    (tcpHandle [exListenSock] exSynPkt 0x0A000002).2 =
      [{ srcPort := 9000, dstPort := 5000, seq := 1000, ack := 2001,
         flags := TCP_SYN ||| TCP_ACK, window := 4096, payload := [] }] ∧
    ((tcpHandle (tcpHandle [exListenSock] exSynPkt 0x0A000002).1 exAckPkt
        0x0A000002).1.getD 0 defaultTcpSocket).state = .established := by
  have h := C6_tcp_handshake [exListenSock] exSynPkt exAckPkt 0x0A000002 0
    (by decide) (by decide) (by decide) (by decide) (by decide) (by decide) (by decide)
  exact ⟨by decide, by rw [h.1]; decide, h.2.2.2⟩

/-! ## Claim C7 — `&&` and `||` ignore exit status -/

theorem dropWhile_length_le {α : Type} (p : α → Bool) (l : List α) :
    (l.dropWhile p).length ≤ l.length := by
  induction l with
  | nil => simp
  | cons a t ih =>
    cases hp : p a <;> simp [List.dropWhile, hp] <;> omega

theorem trimChars_length_le (l : List Char) : (trimChars l).length ≤ l.length := by
  unfold trimChars
  calc ((l.dropWhile isShellWs).reverse.dropWhile isShellWs).reverse.length
      = ((l.dropWhile isShellWs).reverse.dropWhile isShellWs).length := by
        rw [List.length_reverse]
    _ ≤ (l.dropWhile isShellWs).reverse.length := dropWhile_length_le _ _
    _ = (l.dropWhile isShellWs).length := by rw [List.length_reverse]
    _ ≤ l.length := dropWhile_length_le _ _

theorem findOperator_ne_nil (l : List Char) (x : Nat × Nat)
    (h : findOperator l = some x) : l ≠ [] := by
  intro he
  subst he
  simp [findOperator, findOpAux] at h

/-- The fuel of `shellExecGo` is irrelevant once it exceeds the input
length (each chained step consumes at least the operator). -/
theorem shellExecGo_fuel :
    ∀ (f f2 : Nat) (l : List Char), l.length < f → l.length < f2 →
      shellExecGo f l = shellExecGo f2 l := by
  intro f
  induction f with
  | zero =>
    intro f2 l h1 _
    omega
  | succ f ih =>
    intro f2 l h1 h2
    rcases f2 with _ | f2'
    · omega
    · unfold shellExecGo
      cases hop : findOperator (l.take 511) with
      | none => simp only [hop]
      | some pr =>
        obtain ⟨op, pos⟩ := pr
        have hlne : l ≠ [] := by
          have := findOperator_ne_nil _ _ hop
          intro he
          subst he
          simp at this
        have hll : 1 ≤ l.length := by
          cases l
          · exact absurd rfl hlne
          · simp
        have hright : ∀ sk : Nat, 1 ≤ sk →
            (trimChars ((l.take 511).drop (pos + sk))).length < l.length := by
          intro sk hsk
          have h1' := trimChars_length_le ((l.take 511).drop (pos + sk))
          have h2' : ((l.take 511).drop (pos + sk)).length ≤ (l.take 511).length - 1 := by
            rw [List.length_drop]
            have : 1 ≤ (l.take 511).length := by
              rw [List.length_take]
              omega
            omega
          have h3' : (l.take 511).length ≤ l.length := by
            rw [List.length_take]
            omega
          omega
        simp only [hop]
        rcases op with _ | _ | _ | _ | _ | _ | _ | _ | op'
        · rfl
        · rfl
        · rfl
        · rfl
        · rfl
        · exact congrArg _
            (ih f2' _ (lt_of_lt_of_le (hright _ (by decide)) (by omega))
              (lt_of_lt_of_le (hright _ (by decide)) (by omega)))
        · rfl
        · exact congrArg _
            (ih f2' _ (lt_of_lt_of_le (hright _ (by decide)) (by omega))
              (lt_of_lt_of_le (hright _ (by decide)) (by omega)))
        · rfl

/-- Claim C7: when the leftmost unquoted operator of the (511-byte
truncated) line is `&&` at position `pos`, `shell_execute_advanced` runs
the left command and then processes the right side unconditionally — the
executions are exactly those of the left followed by those of the right,
for every left command, with no exit status consulted (none exists:
`shell_execute_simple` returns void).  When the operator is `||`, only
the left command runs; the right side never does. -/
theorem C7_chain_operators (input : List Char) (pos : Nat) :
    (findOperator (input.take 511) = some (5, pos) →
      shellExecuteAdvanced input =
        .simple (trimChars ((input.take 511).take pos)) ::
          shellExecuteAdvanced (trimChars ((input.take 511).drop (pos + 2)))) ∧
    (findOperator (input.take 511) = some (6, pos) →
      shellExecuteAdvanced input = [.simple (trimChars ((input.take 511).take pos))]) := by
  constructor
  · intro hop
    have hlne : input ≠ [] := by
      have := findOperator_ne_nil _ _ hop
      intro he
      subst he
      simp at this
    have hll : 1 ≤ input.length := by
      cases input
      · exact absurd rfl hlne
      · simp
    show shellExecGo (input.length + 1) input = _
    unfold shellExecGo
    simp only [hop]
    refine congrArg _ ?_
    have hr : (trimChars ((input.take 511).drop (pos + 2))).length < input.length := by
      have h1' := trimChars_length_le ((input.take 511).drop (pos + 2))
      have h2' : ((input.take 511).drop (pos + 2)).length ≤ (input.take 511).length - 1 := by
        rw [List.length_drop]
        have : 1 ≤ (input.take 511).length := by
          rw [List.length_take]
          omega
        omega
      have h3' : (input.take 511).length ≤ input.length := by
        rw [List.length_take]
        omega
      omega
    exact shellExecGo_fuel input.length _ _ hr (Nat.lt_succ_self _)
  · intro hop
    show shellExecGo (input.length + 1) input = _
    unfold shellExecGo
    simp only [hop]

/-- Claim C7, witness: `a && b` runs `a` then `b`; `a || b` runs only
`a`. -/
theorem C7_witness :
    findOperator (['a', ' ', '&', '&', ' ', 'b'].take 511) = some (5, 2) ∧
    findOperator (['a', ' ', '|', '|', ' ', 'b'].take 511) = some (6, 2) ∧
    shellExecuteAdvanced ['a', ' ', '&', '&', ' ', 'b'] =
      .simple (trimChars ((['a', ' ', '&', '&', ' ', 'b'].take 511).take 2)) ::
        shellExecuteAdvanced (trimChars ((['a', ' ', '&', '&', ' ', 'b'].take 511).drop 4)) ∧
    shellExecuteAdvanced ['a', ' ', '|', '|', ' ', 'b'] =
      [.simple (trimChars ((['a', ' ', '|', '|', ' ', 'b'].take 511).take 2))] :=
  ⟨by decide, by decide,
    (C7_chain_operators ['a', ' ', '&', '&', ' ', 'b'] 2).1 (by decide),
    (C7_chain_operators ['a', ' ', '|', '|', ' ', 'b'] 2).2 (by decide)⟩

/-! ## Claim C8 — quoted operator characters are inert -/

theorem opAt_none_iff (c : Char) (rest : List Char) :
    opAt (c :: rest) = none ↔
      (c ≠ '|' ∧ c ≠ '>' ∧ c ≠ '<' ∧ c ≠ ';' ∧
        (c = '&' → rest.headD (Char.ofNat 0) ≠ '&')) := by
  simp only [opAt]
  split_ifs with h1 h2 h3 h4 h5 h6 h7 <;> simp_all <;> tauto

theorem opAt_take_none (c : Char) (rest : List Char) (n : Nat)
    (h : opAt (c :: rest) = none) : opAt (c :: rest.take n) = none := by
  rw [opAt_none_iff] at h ⊢
  obtain ⟨h1, h2, h3, h4, h5⟩ := h
  refine ⟨h1, h2, h3, h4, fun hc => ?_⟩
  cases rest with
  | nil =>
    simp only [List.take_nil]
    decide
  | cons r rs =>
    cases n with
    | zero =>
      simp only [List.take_zero]
      decide
    | succ n => simpa using h5 hc

/-- Scanning a prefix of a line the scanner rejects still rejects: the
mode at every surviving position is unchanged and no new operator can be
exposed by truncation (a lone `&` is not an operator). -/
theorem findOpAux_take_none :
    ∀ (l : List Char) (m : ScanMode) (i n : Nat),
      findOpAux m l i = none → findOpAux m (l.take n) i = none := by
  intro l
  induction l with
  | nil =>
    intro m i n h
    rw [List.take_nil]
    exact h
  | cons c rest ih =>
    intro m i n h
    cases n with
    | zero => cases m <;> rfl
    | succ n =>
      rw [List.take_succ_cons]
      cases m with
      | inDouble =>
        unfold findOpAux at h ⊢
        by_cases hc : c = '"'
        · rw [if_pos hc] at h ⊢
          exact ih _ _ _ h
        · rw [if_neg hc] at h ⊢
          exact ih _ _ _ h
      | inSingle =>
        unfold findOpAux at h ⊢
        by_cases hc : c = '\''
        · rw [if_pos hc] at h ⊢
          exact ih _ _ _ h
        · rw [if_neg hc] at h ⊢
          exact ih _ _ _ h
      | normal =>
        unfold findOpAux at h ⊢
        by_cases hc : c = '"'
        · rw [if_pos hc] at h ⊢
          exact ih _ _ _ h
        · by_cases hcs : c = '\''
          · rw [if_neg hc, if_pos hcs] at h ⊢
            exact ih _ _ _ h
          · rw [if_neg hc, if_neg hcs] at h ⊢
            cases hoa : opAt (c :: rest) with
            | some op =>
              rw [hoa] at h
              simp at h
            | none =>
              rw [hoa] at h
              rw [opAt_take_none c rest n hoa]
              exact ih _ _ _ h

/-- Inside a double quote the scanner skips to the closing quote. -/
theorem findOpAux_inDouble (s : List Char) (hs : '"' ∉ s) :
    ∀ (l : List Char) (i : Nat),
      findOpAux .inDouble (s ++ '"' :: l) i = findOpAux .normal l (i + s.length + 1) := by
  induction s with
  | nil =>
    intro l i
    simp [findOpAux]
  | cons c s' ih =>
    intro l i
    have hc : c ≠ '"' := fun he => hs (by simp [he])
    have hs' : '"' ∉ s' := fun hh => hs (by simp [hh])
    have hstep : findOpAux ScanMode.inDouble ((c :: s') ++ '"' :: l) i
        = findOpAux ScanMode.inDouble (s' ++ '"' :: l) (i + 1) := by
      show (if c = '"' then findOpAux ScanMode.normal (s' ++ '"' :: l) (i + 1)
            else findOpAux ScanMode.inDouble (s' ++ '"' :: l) (i + 1)) = _
      rw [if_neg hc]
    rw [hstep, ih hs' l (i + 1)]
    have harith : i + 1 + s'.length + 1 = i + (c :: s').length + 1 := by
      rw [List.length_cons]; omega
    rw [harith]

/-- Inside a single quote the scanner skips to the closing quote. -/
theorem findOpAux_inSingle (s : List Char) (hs : '\'' ∉ s) :
    ∀ (l : List Char) (i : Nat),
      findOpAux .inSingle (s ++ '\'' :: l) i = findOpAux .normal l (i + s.length + 1) := by
  induction s with
  | nil =>
    intro l i
    simp [findOpAux]
  | cons c s' ih =>
    intro l i
    have hc : c ≠ '\'' := fun he => hs (by simp [he])
    have hs' : '\'' ∉ s' := fun hh => hs (by simp [hh])
    have hstep : findOpAux ScanMode.inSingle ((c :: s') ++ '\'' :: l) i
        = findOpAux ScanMode.inSingle (s' ++ '\'' :: l) (i + 1) := by
      show (if c = '\'' then findOpAux ScanMode.normal (s' ++ '\'' :: l) (i + 1)
            else findOpAux ScanMode.inSingle (s' ++ '\'' :: l) (i + 1)) = _
      rw [if_neg hc]
    rw [hstep, ih hs' l (i + 1)]
    have harith : i + 1 + s'.length + 1 = i + (c :: s').length + 1 := by
      rw [List.length_cons]; omega
    rw [harith]

/-- On a line whose operator characters all sit inside quoted
substrings, the scan of `find_operator` reports no operator, from any
start position. -/
theorem quotedOnly_no_op (l : List Char) (hq : QuotedOnly l) :
    ∀ i, findOpAux .normal l i = none := by
  induction hq with
  | nil => intro i; rfl
  | plain c l hc hcq hcs _ ih =>
    intro i
    have hopn : opAt (c :: l) = none := by
      rw [opAt_none_iff]
      simp only [List.mem_cons] at hc
      push_neg at hc
      exact ⟨hc.1, hc.2.1, hc.2.2.1, hc.2.2.2.2.1, fun he => absurd he hc.2.2.2.1⟩
    unfold findOpAux
    rw [if_neg hcq, if_neg hcs, hopn]
    exact ih (i + 1)
  | dquoted s l hns _ ih =>
    intro i
    show findOpAux .normal ('"' :: (s ++ '"' :: l)) i = none
    unfold findOpAux
    rw [if_pos rfl, findOpAux_inDouble s hns l (i + 1)]
    exact ih _
  | squoted s l hns _ ih =>
    intro i
    show findOpAux .normal ('\'' :: (s ++ '\'' :: l)) i = none
    unfold findOpAux
    rw [if_neg (by decide), if_pos rfl, findOpAux_inSingle s hns l (i + 1)]
    exact ih _

/-- Claim C8: on every input line in which the operator characters
`| > < & ;` occur only inside single- or double-quoted substrings,
`find_operator` finds no operator and `shell_execute_advanced` executes
the (511-byte truncated) line as one simple command. -/
theorem C8_quoted_operators (l : List Char) (hq : QuotedOnly l) :
    findOperator l = none ∧ shellExecuteAdvanced l = [.simple (l.take 511)] := by
  have h1 : findOperator l = none := quotedOnly_no_op l hq 0
  refine ⟨h1, ?_⟩
  show shellExecGo (l.length + 1) l = _
  unfold shellExecGo
  have h2 : findOperator (l.take 511) = none := findOpAux_take_none l .normal 0 511 h1
  simp only [h2]

/-- Claim C8, witness: `ec"a|b"` — the `|` sits in quotes, no operator is
found and the line runs as one simple command. -/
theorem C8_witness :
    QuotedOnly ['e', 'c', '"', 'a', '|', 'b', '"'] ∧
    findOperator ['e', 'c', '"', 'a', '|', 'b', '"'] = none ∧
    shellExecuteAdvanced ['e', 'c', '"', 'a', '|', 'b', '"'] =
      [.simple (['e', 'c', '"', 'a', '|', 'b', '"'].take 511)] :=
  have hq : QuotedOnly ['e', 'c', '"', 'a', '|', 'b', '"'] :=
    .plain 'e' _ (by decide) (by decide) (by decide)
      (.plain 'c' _ (by decide) (by decide) (by decide)
        (QuotedOnly.dquoted ['a', '|', 'b'] [] (by decide) .nil))
  ⟨hq, (C8_quoted_operators _ hq).1, (C8_quoted_operators _ hq).2⟩

/-! ## Claim C3 — signal delivery

The claim asserts that one `signal_check` clears exactly the pending bit
of the lowest deliverable signal and fires its handler or default action.
The loop body, however, clears the pending bit *before* looking at the
handler, and a `SIG_IGN` handler `continue`s the scan instead of breaking
out of it: every deliverable-but-ignored signal below the first
non-ignored one also loses its pending bit in the same call. -/

/-- Claim C3, counterexample.  Signals 1 and 2 are pending and unblocked,
signal 1 is explicitly ignored, signal 2 is on its default handler.  The
lowest deliverable signal is 1, yet one `signal_check` clears *both*
pending bits (final pending bitmap 0, not 4) and runs signal 2's default
action `proc_exit(130)`.  The claim predicts that only signal 1's bit is
cleared and that no other signal's action runs. -/
theorem C3_counterexample :
    (deliverableMask exSig).testBit 1 = true ∧
    (deliverableMask exSig).testBit 2 = true ∧
    (signalCheck exSig).1.pending = 0 ∧
    (signalCheck exSig).2 = some (.exit 130) := by
  decide

/-- One pass of the delivery loop, characterised by the pure functions
`loopCleared` and `loopAction`: blocked bits and handlers are untouched,
the cleared pending bits are `loopCleared` and the fired action is
`loopAction`. -/
theorem sigCheckLoop_spec (d : Nat) (sigs : List Nat) : ∀ (st : SigState),
    sigCheckLoop d st sigs =
      ({ st with pending :=
           (loopCleared d st.handlers sigs).foldl clearSigBit st.pending },
       loopAction d st.handlers sigs) := by
  induction sigs with
  | nil => intro st; rfl
  | cons s rest ih =>
    intro st
    by_cases hd : d.testBit s = false
    · simp only [sigCheckLoop, loopCleared, loopAction, hd, if_pos,
        Bool.false_eq_true, if_false]
      exact ih st
    · have hd' : d.testBit s = true := by
        cases h : d.testBit s with
        | false => exact absurd h hd
        | true => rfl
      simp only [sigCheckLoop, loopCleared, loopAction, hd',
        Bool.true_eq_false, if_false, if_true]
      rcases hh : st.handlers s with _ | _ | f
      · by_cases h17 : s = 17 ∨ s = 18 ∨ s = 19
        · simp only [h17, if_true]
          rfl
        · simp only [h17, if_false]
          rfl
      · exact ih { st with pending := clearSigBit st.pending s }
      · rfl

/-- The loop's action is determined by the first scanned signal that is
deliverable and not ignored. -/
theorem loopAction_find (d : Nat) (h : Nat → SigHandler) (sigs : List Nat) :
    loopAction d h sigs =
      (sigs.find? fun s => d.testBit s && !(decide (h s = .ign))).bind
        (fun s =>
          match h s with
          | .ign => none
          | .dfl => if s = 17 ∨ s = 18 ∨ s = 19 then none
                    else some (.exit (128 + s))
          | .custom f => some (.handlerCall f s)) := by
  induction sigs with
  | nil => rfl
  | cons s rest ih =>
    by_cases hd : d.testBit s = true
    · by_cases hh : h s = .ign
      · have hp : (d.testBit s && !(decide (h s = .ign))) = false := by
          simp [hh]
        rw [List.find?_cons_of_neg _ (by simp [hp]), ← ih]
        simp only [loopAction, hd, if_true, hh]
      · have hp : (d.testBit s && !(decide (h s = .ign))) = true := by
          simp [hd, hh]
        rw [List.find?_cons_of_pos _ (by simp [hp])]
        simp only [loopAction, hd, if_true, Option.some_bind]
        rcases hc : h s with _ | _ | f
        · rfl
        · exact absurd hc hh
        · rfl
    · have hp : (d.testBit s && !(decide (h s = .ign))) = false := by
        simp at hd; simp [hd]
      rw [List.find?_cons_of_neg _ (by simp [hp]), ← ih]
      simp only [loopAction]
      simp at hd
      simp [hd]

/-- The pending bits the loop clears: the deliverable signals scanned
strictly before the stop signal plus the stop signal itself, or all
deliverable scanned signals when every one of them is ignored. -/
theorem loopCleared_find (d : Nat) (h : Nat → SigHandler) (sigs : List Nat) :
    loopCleared d h sigs =
      match sigs.find? (fun s => d.testBit s && !(decide (h s = .ign))) with
      | some sf =>
          (sigs.takeWhile (fun s => decide (s ≠ sf))).filter
            (fun s => d.testBit s) ++ [sf]
      | none => sigs.filter (fun s => d.testBit s) := by
  induction sigs with
  | nil => rfl
  | cons s rest ih =>
    by_cases hd : d.testBit s = true
    · by_cases hh : h s = .ign
      · have hp : (d.testBit s && !(decide (h s = .ign))) = false := by simp [hh]
        rw [List.find?_cons_of_neg _ (by simp [hp])]
        simp only [loopCleared, hd, if_true, hh, if_pos]
        cases hfind : rest.find? (fun s => d.testBit s && !(decide (h s = .ign))) with
        | some sf =>
          have hsf := List.find?_some hfind
          have hne : s ≠ sf := by
            intro he
            rw [← he, hh] at hsf
            simp at hsf
          rw [hfind] at ih
          simp only [List.takeWhile_cons, decide_eq_true hne, if_true,
            List.filter_cons, hd, if_true, List.cons_append]
          rw [ih]
        | none =>
          rw [hfind] at ih
          simp only [List.filter_cons, hd, if_true]
          rw [ih]
      · have hp : (d.testBit s && !(decide (h s = .ign))) = true := by
          simp [hd, hh]
        rw [List.find?_cons_of_pos _ (by simp [hp])]
        simp only [loopCleared, hd, if_true, hh, if_neg]
        have : decide (s ≠ s) = false := by simp
        simp [List.takeWhile_cons, this]
    · have hdf : d.testBit s = false := by simpa using hd
      have hp : (d.testBit s && !(decide (h s = .ign))) = false := by simp [hdf]
      rw [List.find?_cons_of_neg _ (by simp [hp])]
      simp only [loopCleared, hdf, Bool.false_eq_true, if_false]
      cases hfind : rest.find? (fun s => d.testBit s && !(decide (h s = .ign))) with
      | some sf =>
        have hsf := List.find?_some hfind
        have hne : s ≠ sf := by
          intro he
          rw [← he, hdf] at hsf
          simp at hsf
        rw [hfind] at ih
        simp only [List.takeWhile_cons, decide_eq_true hne, if_true,
          List.filter_cons, hdf, Bool.false_eq_true, if_false]
        rw [ih]
      | none =>
        rw [hfind] at ih
        simp only [List.filter_cons, hdf, Bool.false_eq_true, if_false]
        rw [ih]

/-- `loopCleared` only ever names scanned signals. -/
theorem loopCleared_subset (d : Nat) (h : Nat → SigHandler) (sigs : List Nat) :
    ∀ a ∈ loopCleared d h sigs, a ∈ sigs := by
  induction sigs with
  | nil => intro a ha; simp [loopCleared] at ha
  | cons s rest ih =>
    intro a ha
    simp only [loopCleared] at ha
    split_ifs at ha with h1 h2
    · rcases List.mem_cons.mp ha with h | h
      · exact h ▸ List.mem_cons_self _ _
      · exact List.mem_cons_of_mem _ (ih a h)
    · rw [List.mem_singleton.mp ha]
      exact List.mem_cons_self _ _
    · exact List.mem_cons_of_mem _ (ih a ha)

/-- `pending &= ~(1 << sig)` on a 32-bit bitmap clears bit `sig` and
nothing else. -/
theorem testBit_clearSigBit (p a s : Nat) (hp : p < 2 ^ 32) (ha : a < 32) :
    (clearSigBit p a).testBit s = (p.testBit s && !(decide (s = a))) := by
  unfold clearSigBit
  have h32 : (0xFFFFFFFF : Nat) = 2 ^ 32 - 1 := by norm_num
  rw [Nat.testBit_and, Nat.testBit_xor, h32, Nat.testBit_two_pow_sub_one,
    Nat.shiftLeft_eq, one_mul, Nat.testBit_two_pow]
  by_cases hs : s < 32
  · by_cases hsa : s = a
    · subst hsa; simp [hs]
    · have : a ≠ s := fun h => hsa h.symm
      simp [hs, hsa, this]
  · have hps : p.testBit s = false := by
      apply Nat.testBit_eq_false_of_lt
      exact lt_of_lt_of_le hp (Nat.pow_le_pow_right (by norm_num) (by omega))
    have hne : a ≠ s := by omega
    have hne' : s ≠ a := fun h => hne h.symm
    simp [hs, hps, hne, hne']

/-- Folding `clearSigBit` over a list of signal numbers below 32 clears
exactly the listed bits of a 32-bit bitmap. -/
theorem testBit_foldl_clear (L : List Nat) : ∀ (p : Nat), p < 2 ^ 32 →
    (∀ a ∈ L, a < 32) →
    ∀ s, (L.foldl clearSigBit p).testBit s =
      (p.testBit s && !(decide (s ∈ L))) := by
  induction L with
  | nil => intro p hp _ s; simp
  | cons a L ih =>
    intro p hp hL s
    rw [List.foldl_cons]
    have hq : clearSigBit p a ≤ p := Nat.and_le_left
    rw [ih (clearSigBit p a) (lt_of_le_of_lt hq hp)
        (fun b hb => hL b (List.mem_cons_of_mem _ hb)) s,
      testBit_clearSigBit p a s hp (hL a (List.mem_cons_self _ _))]
    by_cases h1 : s = a <;> by_cases h2 : s ∈ L <;> simp [h1, h2]

/-- Claim C3, amended: one `signal_check` leaves the blocked bitmap and
the handler table untouched; the pending bits it clears are exactly
`sigCleared` — the deliverable-and-ignored signals below the first
deliverable non-ignored signal, that signal itself included (or every
deliverable signal when all are ignored) — and the single action it fires
is the default action or handler call of that first non-ignored
deliverable signal `sigFire`, so at most one handler or default action
runs but possibly several pending bits are cleared. -/
theorem C3_signal_delivery (st : SigState) (hp : st.pending < 2 ^ 32) :
    (signalCheck st).1.blocked = st.blocked ∧
    (signalCheck st).1.handlers = st.handlers ∧
    (∀ s, (signalCheck st).1.pending.testBit s =
      (st.pending.testBit s && !(decide (s ∈ sigCleared st)))) ∧
    (signalCheck st).2 = (sigFire st).bind (sigDefaultAct st) := by
  have hdm : deliverableMask st = st.pending &&& (0xFFFFFFFF ^^^ st.blocked) := rfl
  unfold signalCheck
  by_cases h0 : st.pending &&& (0xFFFFFFFF ^^^ st.blocked) = 0
  · rw [if_pos h0]
    have hfire : sigFire st = none := by
      unfold sigFire
      apply List.find?_eq_none.mpr
      intro s _
      rw [hdm, h0]
      simp
    have hclr : sigCleared st = [] := by
      unfold sigCleared
      rw [hfire]
      apply List.filter_eq_nil.mpr
      intro s _
      rw [hdm, h0]
      simp
    refine ⟨rfl, rfl, ?_, ?_⟩
    · intro s
      rw [hclr]
      simp
    · rw [hfire]
      rfl
  · rw [if_neg h0, sigCheckLoop_spec]
    have hcl : sigCleared st =
        loopCleared (deliverableMask st) st.handlers ((List.range 32).drop 1) := by
      rw [loopCleared_find]
      unfold sigCleared sigFire
      rfl
    refine ⟨rfl, rfl, ?_, ?_⟩
    · intro s
      show ((loopCleared (deliverableMask st) st.handlers
          ((List.range 32).drop 1)).foldl clearSigBit st.pending).testBit s = _
      rw [testBit_foldl_clear _ st.pending hp
          (fun a ha => by
            have := loopCleared_subset _ _ _ a ha
            have := List.mem_range.mp (List.mem_of_mem_drop this)
            omega) s, hcl]
    · show loopAction (deliverableMask st) st.handlers ((List.range 32).drop 1) = _
      rw [loopAction_find]
      rfl

/-- Claim C3, witness: on the state with only signal 3 pending (default
handler everywhere), the amended theorem applies: the cleared set is
exactly `sigCleared`, signal 3 fires and its default action is
`proc_exit(131)`. -/
theorem C3_witness :
    exSig2.pending < 2 ^ 32 ∧
    ((signalCheck exSig2).1.pending.testBit 3 =
      (exSig2.pending.testBit 3 && !(decide (3 ∈ sigCleared exSig2)))) ∧
    (signalCheck exSig2).2 = (sigFire exSig2).bind (sigDefaultAct exSig2) :=
  ⟨by decide, (C3_signal_delivery exSig2 (by decide)).2.2.1 3,
    (C3_signal_delivery exSig2 (by decide)).2.2.2⟩

end NanoSec
